import Mathlib

/-!
# FastTrack ingestion pipeline: publisher, consumer, storage gateway

A shallow embedding of the Go sources

* `internal/publisher/publisher.go` (`Payment`, `Publish`),
* `internal/consumer/consumer.go` (`Payment`, `Consume`, `isDuplicateKeyError`),
* `internal/db/mysql.go` (`InitDB`, `createTables`),
* `cmd/app/main.go` (the order in which the queue is filled and drained),

together with models of the collaborators they call: `encoding/json` for the
`Payment` struct, `strconv`, `strings.Contains`, the AMQP channel and the MySQL
server holding the two tables declared in `createTables`.

Conventions.

* A Go `error` is `Option GoError`; `none` is `nil`.
* Go's `int` is a 64-bit integer; it is embedded as `Int` and the range is
  stated where it matters (`inInt64`).  JSON decoding checks it, as Go does.
* A `[]byte` message body is a `List Char` (the text of the payload).
* Effects are explicit: a collaborator is a function on an explicit state, and
  every function that talks to one returns the new state and the trace of the
  calls and log lines it made, in program order.
-/

namespace FastTrack

/-! ## Errors -/

/-- Go `error` values as far as the program distinguishes them: the driver's
structured `*mysql.MySQLError` (with its `Number` and `Message`), or any other
error, given by the text its `Error()` method returns. -/
inductive GoError where
  | mysql (Number : Nat) (Message : String)
  | other (text : String)
  deriving DecidableEq

/-! ## The event schema -/

/-- The message structure `Payment`, declared with the same three `int` fields
and JSON tags in both `publisher` and `consumer`. -/
structure Payment where
  UserID : Int
  PaymentID : Int
  DepositAmount : Int
  deriving DecidableEq

/-- The values of Go's 64-bit `int`. -/
def inInt64 (n : Int) : Prop := -(2 ^ 63) ≤ n ∧ n < 2 ^ 63

instance (n : Int) : Decidable (inInt64 n) := by
  unfold inInt64; infer_instance

/-- A `Payment` whose three fields are Go `int` values. -/
def Payment.wellFormed (p : Payment) : Prop :=
  inInt64 p.UserID ∧ inInt64 p.PaymentID ∧ inInt64 p.DepositAmount

instance (p : Payment) : Decidable p.wellFormed := by
  unfold Payment.wellFormed; infer_instance

/-- The fields of `Payment`, in declaration order. -/
inductive Field where
  | UserID
  | PaymentID
  | DepositAmount
  deriving DecidableEq

/-- The `json:"..."` tag of each field. -/
def Field.tag : Field → List Char
  | .UserID => "user_id".data
  | .PaymentID => "payment_id".data
  | .DepositAmount => "deposit_amount".data

/-- Assigning a field. -/
def Payment.set (p : Payment) (f : Field) (v : Int) : Payment :=
  match f with
  | .UserID => { p with UserID := v }
  | .PaymentID => { p with PaymentID := v }
  | .DepositAmount => { p with DepositAmount := v }

/-! ## `strings` and `strconv` -/

/-- Whether `sub` is a leading segment of `s` (`strings.HasPrefix`, on character lists). -/
def hasLeading : List Char → List Char → Bool
  | _, [] => true
  | [], _ :: _ => false
  | c :: cs, d :: ds => c == d && hasLeading cs ds

/-- Whether `sub` occurs in `s` at some position, on character lists. -/
def containsChars : List Char → List Char → Bool
  | [], sub => sub.isEmpty
  | c :: cs, sub => hasLeading (c :: cs) sub || containsChars cs sub

/-- Go's `strings.Contains(s, substr)`. -/
def strings.Contains (s substr : String) : Bool :=
  containsChars s.data substr.data

/-- The decimal digit character of `d < 10`. -/
def digitChar (d : Nat) : Char := Char.ofNat ('0'.toNat + d)

/-- The value of a decimal digit character. -/
def digitVal (c : Char) : Nat := c.toNat - '0'.toNat

/-- ASCII decimal digits. -/
def isDigit (c : Char) : Bool :=
  '0'.toNat ≤ c.toNat && c.toNat ≤ '9'.toNat

/-- The decimal digits of `n`, least significant first; `fuel` bounds the number
of digits produced and `fuel = n` is always enough (`digitsRev_eq_digits`). -/
def digitsRev : Nat → Nat → List Nat
  | 0, _ => []
  | fuel + 1, n => if n = 0 then [] else (n % 10) :: digitsRev fuel (n / 10)

/-- Decimal text of a natural number (`strconv.FormatUint(n, 10)`). -/
def formatUint (n : Nat) : List Char :=
  if n = 0 then ['0'] else (digitsRev n n).reverse.map digitChar

/-- Decimal text of an integer (`strconv.FormatInt(n, 10)`), the form in which
`encoding/json` writes an `int`. -/
def formatInt (n : Int) : List Char :=
  if n < 0 then '-' :: formatUint n.natAbs else formatUint n.natAbs

/-- The number written by a non-empty string of decimal digits. -/
def parseUint (cs : List Char) : Option Nat :=
  if cs.isEmpty then none
  else if cs.all isDigit then some (cs.foldl (fun acc c => acc * 10 + digitVal c) 0)
  else none

/-- Go's `strconv.ParseInt(s, 10, 64)`: an optional sign and decimal digits,
within the 64-bit range; `none` stands for a non-nil error. -/
def strconv.ParseInt (s : List Char) : Option Int :=
  match s with
  | [] => none
  | c :: rest =>
    if c = '-' then
      match parseUint rest with
      | some n => if n ≤ 2 ^ 63 then some (-(n : Int)) else none
      | none => none
    else
      match parseUint (if c = '+' then rest else c :: rest) with
      | some n => if n < 2 ^ 63 then some (n : Int) else none
      | none => none

/-! ## `encoding/json`: syntax -/

/-- JSON values as the decoder sees them; a number keeps its literal text. -/
inductive JSON where
  | null
  | bool (b : Bool)
  | number (lit : List Char)
  | string (s : List Char)
  | array (elems : List JSON)
  | object (members : List (List Char × JSON))

/-- JSON insignificant whitespace. -/
def isSpace (c : Char) : Bool :=
  c = ' ' || c = '\t' || c = '\r' || c = '\n'

/-- Skips leading whitespace. -/
def skipSpace : List Char → List Char
  | [] => []
  | c :: cs => if isSpace c then skipSpace cs else c :: cs

/-- Splits off the longest leading run of digits. -/
def takeDigits : List Char → List Char × List Char
  | [] => ([], [])
  | c :: cs =>
    if isDigit c then
      let r := takeDigits cs
      (c :: r.1, r.2)
    else ([], c :: cs)

/-- The value of a hexadecimal digit. -/
def hexVal (c : Char) : Option Nat :=
  if isDigit c then some (c.toNat - '0'.toNat)
  else if 'a'.toNat ≤ c.toNat && c.toNat ≤ 'f'.toNat then some (c.toNat - 'a'.toNat + 10)
  else if 'A'.toNat ≤ c.toNat && c.toNat ≤ 'F'.toNat then some (c.toNat - 'A'.toNat + 10)
  else none

/-- The code unit of a leading `\uXXXX` escape (`getu4`). -/
def getu4 : List Char → Option Nat
  | '\\' :: 'u' :: a :: b :: c :: d :: _ =>
    match hexVal a, hexVal b, hexVal c, hexVal d with
    | some x, some y, some z, some w => some (((x * 16 + y) * 16 + z) * 16 + w)
    | _, _, _, _ => none
  | _ => none

/-- U+FFFD, written for an unpaired surrogate escape. -/
def replacementChar : Char := Char.ofNat 0xFFFD

/-- UTF-16 surrogate code units. -/
def isSurrogate (r : Nat) : Bool := 0xD800 ≤ r && r < 0xE000

/-- The character of a surrogate pair (`utf16.DecodeRune`), if it is one. -/
def decodeSurrogates (r1 : Nat) (r2 : Option Nat) : Option Char :=
  match r2 with
  | some r2 =>
    if 0xD800 ≤ r1 && r1 < 0xDC00 && 0xDC00 ≤ r2 && r2 < 0xE000 then
      some (Char.ofNat ((r1 - 0xD800) * 1024 + (r2 - 0xDC00) + 0x10000))
    else none
  | none => none

/-- Reads a string literal after its opening quote: the unquoted text and the
input after the closing quote.  `fuel` bounds the characters read; the length
of the input is always enough (`scanString_fuel`). -/
def scanString : Nat → List Char → Option (List Char × List Char)
  | 0, _ => none
  | _ + 1, [] => none
  | fuel + 1, c :: cs =>
    if c = '"' then some ([], cs)
    else if c = '\\' then
      match cs with
      | [] => none
      | e :: rest =>
        if e = 'u' then
          match getu4 (c :: cs) with
          | none => none
          | some r =>
            let after := rest.drop 4
            if isSurrogate r then
              match decodeSurrogates r (getu4 after) with
              | some ch => (scanString fuel (after.drop 6)).map fun p => (ch :: p.1, p.2)
              | none => (scanString fuel after).map fun p => (replacementChar :: p.1, p.2)
            else (scanString fuel after).map fun p => (Char.ofNat r :: p.1, p.2)
        else
          let simple : Option Char :=
            if e = '"' then some '"' else if e = '\\' then some '\\'
            else if e = '/' then some '/' else if e = 'b' then some (Char.ofNat 8)
            else if e = 'f' then some (Char.ofNat 12) else if e = 'n' then some '\n'
            else if e = 'r' then some '\r' else if e = 't' then some '\t' else none
          match simple with
          | none => none
          | some ch => (scanString fuel rest).map fun p => (ch :: p.1, p.2)
    else if c.toNat < 0x20 then none
    else (scanString fuel cs).map fun p => (c :: p.1, p.2)

/-- The optional exponent part of a number. -/
def scanExponent (cs : List Char) : Option (List Char × List Char) :=
  match cs with
  | [] => some ([], [])
  | c :: rest =>
    if c = 'e' || c = 'E' then
      let signed : List Char × List Char :=
        match rest with
        | [] => ([], [])
        | s :: rest2 => if s = '+' || s = '-' then ([s], rest2) else ([], rest)
      let ds := takeDigits signed.2
      if ds.1.isEmpty then none else some (c :: signed.1 ++ ds.1, ds.2)
    else some ([], cs)

/-- The optional fraction part of a number, then its exponent. -/
def scanFraction (cs : List Char) : Option (List Char × List Char) :=
  match cs with
  | [] => some ([], [])
  | c :: rest =>
    if c = '.' then
      let ds := takeDigits rest
      if ds.1.isEmpty then none
      else (scanExponent ds.2).map fun p => (c :: ds.1 ++ p.1, p.2)
    else scanExponent cs

/-- The integer part of a number: `0`, or a non-zero digit and more digits. -/
def scanInteger (cs : List Char) : Option (List Char × List Char) :=
  match cs with
  | [] => none
  | c :: rest =>
    if c = '0' then some (['0'], rest)
    else if isDigit c then
      let ds := takeDigits rest
      some (c :: ds.1, ds.2)
    else none

/-- Reads a number literal: its text and the input after it. -/
def scanNumber (cs : List Char) : Option (List Char × List Char) :=
  let signed : List Char × List Char :=
    match cs with
    | [] => ([], [])
    | c :: rest => if c = '-' then (['-'], rest) else ([], cs)
  match scanInteger signed.2 with
  | none => none
  | some (ip, r1) =>
    match scanFraction r1 with
    | none => none
    | some (fp, r2) => some (signed.1 ++ ip ++ fp, r2)

/-- Drops the expected characters `lit` from the front of the input. -/
def dropLiteral : List Char → List Char → Option (List Char)
  | [], cs => some cs
  | _ :: _, [] => none
  | l :: ls, c :: cs => if l = c then dropLiteral ls cs else none

mutual
/-- Reads one JSON value; `fuel` bounds the nesting and member count, and the
length of the input is always enough (`parseJSON_fuel_enough`). -/
def parseValue : Nat → List Char → Option (JSON × List Char)
  | 0, _ => none
  | fuel + 1, cs =>
    match skipSpace cs with
    | [] => none
    | c :: rest =>
      if c = '{' then
        match skipSpace rest with
        | [] => none
        | c2 :: rest2 =>
          if c2 = '}' then some (JSON.object [], rest2)
          else (parseMembers fuel (c2 :: rest2)).map fun p => (JSON.object p.1, p.2)
      else if c = '[' then
        match skipSpace rest with
        | [] => none
        | c2 :: rest2 =>
          if c2 = ']' then some (JSON.array [], rest2)
          else (parseElements fuel (c2 :: rest2)).map fun p => (JSON.array p.1, p.2)
      else if c = '"' then
        (scanString (rest.length + 1) rest).map fun p => (JSON.string p.1, p.2)
      else if c = 't' then
        (dropLiteral ['r', 'u', 'e'] rest).map fun r => (JSON.bool true, r)
      else if c = 'f' then
        (dropLiteral ['a', 'l', 's', 'e'] rest).map fun r => (JSON.bool false, r)
      else if c = 'n' then
        (dropLiteral ['u', 'l', 'l'] rest).map fun r => (JSON.null, r)
      else
        (scanNumber (c :: rest)).map fun p => (JSON.number p.1, p.2)
/-- Reads the members of an object up to and including the closing brace. -/
def parseMembers : Nat → List Char → Option (List (List Char × JSON) × List Char)
  | 0, _ => none
  | fuel + 1, cs =>
    match skipSpace cs with
    | [] => none
    | c :: rest =>
      if c = '"' then
        match scanString (rest.length + 1) rest with
        | none => none
        | some (key, r1) =>
          match skipSpace r1 with
          | [] => none
          | c1 :: r2 =>
            if c1 = ':' then
              match parseValue fuel r2 with
              | none => none
              | some (v, r3) =>
                match skipSpace r3 with
                | [] => none
                | c3 :: r4 =>
                  if c3 = ',' then
                    (parseMembers fuel r4).map fun p => ((key, v) :: p.1, p.2)
                  else if c3 = '}' then some ([(key, v)], r4)
                  else none
            else none
      else none
/-- Reads the elements of an array up to and including the closing bracket. -/
def parseElements : Nat → List Char → Option (List JSON × List Char)
  | 0, _ => none
  | fuel + 1, cs =>
    match parseValue fuel cs with
    | none => none
    | some (v, r1) =>
      match skipSpace r1 with
      | [] => none
      | c :: r2 =>
        if c = ',' then (parseElements fuel r2).map fun p => (v :: p.1, p.2)
        else if c = ']' then some ([v], r2)
        else none
end

/-- The syntax check `json.Unmarshal` runs over the whole input before it
decodes anything: exactly one JSON value, surrounded by optional whitespace.
`none` stands for a `*json.SyntaxError`.  (Go also refuses values nested more
than 10000 levels deep; that limit is not modelled.) -/
def parseJSON (data : List Char) : Option JSON :=
  match parseValue (data.length + 1) data with
  | none => none
  | some (v, rest) => if (skipSpace rest).isEmpty then some v else none

/-! ## `encoding/json`: decoding into `Payment` and encoding it -/

/-- How `*json.UnmarshalTypeError` names the kind of the offending value. -/
def JSON.kindText : JSON → String
  | .null => "null"
  | .bool _ => "bool"
  | .number lit => "number " ++ String.mk lit
  | .string _ => "string"
  | .array _ => "array"
  | .object _ => "object"

/-- The text of the `*json.UnmarshalTypeError` for value `v` met at field `f`. -/
def fieldTypeError (v : JSON) (f : Field) : GoError :=
  GoError.other ("json: cannot unmarshal " ++ v.kindText ++ " into Go struct field Payment."
    ++ String.mk f.tag ++ " of type int")

/-- The text of the `*json.UnmarshalTypeError` for a top-level value that is
not an object (a number is named without its literal there). -/
def valueTypeError (v : JSON) : GoError :=
  let kind : String :=
    match v with
    | .number _ => "number"
    | _ => v.kindText
  GoError.other ("json: cannot unmarshal " ++ kind ++ " into Go value of type consumer.Payment")

/-- The decoder's state: the struct being filled and the first type error met
(`decodeState.savedError`). -/
structure decodeState where
  v : Payment
  savedError : Option GoError

/-- Keeps only the earliest error (`decodeState.saveError`). -/
def decodeState.saveError (d : decodeState) (err : GoError) : decodeState :=
  match d.savedError with
  | none => { d with savedError := some err }
  | some _ => d

/-- Case folding of one character of an object key.  ASCII letters fold to upper
case; the long s (U+017F) and the Kelvin sign (U+212A) fold to `S` and `K`.
No other character folds to an ASCII one, so leaving the others as they are
does not change which keys match the ASCII tags of `Payment`. -/
def foldRune (c : Char) : Char :=
  if 'a'.toNat ≤ c.toNat && c.toNat ≤ 'z'.toNat then Char.ofNat (c.toNat - 32)
  else if c.toNat = 0x17F then 'S'
  else if c.toNat = 0x212A then 'K'
  else c

/-- Case folding of an object key (`foldName`). -/
def foldName (key : List Char) : List Char := key.map foldRune

/-- The struct fields in declaration order. -/
def fields : List Field := [Field.UserID, Field.PaymentID, Field.DepositAmount]

/-- The field an object key addresses: the field whose tag is the key, and
failing that the field whose tag equals the key up to case folding. -/
def lookupField (key : List Char) : Option Field :=
  match fields.find? (fun f => decide (f.tag = key)) with
  | some f => some f
  | none => fields.find? (fun f => decide (foldName f.tag = foldName key))

/-- Storing a JSON value into an `int` field.  A number literal is read with
`strconv.ParseInt`; `null` has no effect and is no error; anything else, and a
literal `ParseInt` rejects, is a type error: the field is skipped, the error
saved, and decoding goes on. -/
def decodeField (d : decodeState) (f : Field) (v : JSON) : decodeState :=
  match v with
  | .null => d
  | .number lit =>
    match strconv.ParseInt lit with
    | some n => { d with v := d.v.set f n }
    | none => d.saveError (fieldTypeError v f)
  | _ => d.saveError (fieldTypeError v f)

/-- Decoding the members of an object, in order; keys that address no field
are skipped. -/
def decodeObject (d : decodeState) : List (List Char × JSON) → decodeState
  | [] => d
  | (key, v) :: rest =>
    match lookupField key with
    | some f => decodeObject (decodeField d f v) rest
    | none => decodeObject d rest

/-- Go's `json.Unmarshal(data, &v)` for `v` of type `Payment`: the struct after
the call and the error returned.  Invalid syntax is an error and leaves `v`
untouched (one text stands for every `*json.SyntaxError`); a top-level `null`
does nothing; an object is decoded field by field and the earliest type error
is returned after the remaining fields have been stored; any other value is a
type error. -/
def json.Unmarshal (data : List Char) (v : Payment) : Payment × Option GoError :=
  match parseJSON data with
  | none => (v, some (GoError.other "json: invalid JSON input"))
  | some JSON.null => (v, none)
  | some (JSON.object members) =>
    let d := decodeObject { v := v, savedError := none } members
    (d.v, d.savedError)
  | some j => (v, some (valueTypeError j))

/-- One `"tag":value` member as `json.Marshal` writes it. -/
def encodeMember (f : Field) (n : Int) : List Char :=
  '"' :: f.tag ++ '"' :: ':' :: formatInt n

/-- Go's `json.Marshal(p)` for a `Payment`: the compact object with the three
tagged fields in declaration order.  Encoding a struct of `int`s never fails,
so the error is always `nil`. -/
def json.Marshal (p : Payment) : List Char × Option GoError :=
  ('{' :: encodeMember Field.UserID p.UserID ++ ',' :: encodeMember Field.PaymentID p.PaymentID
      ++ ',' :: encodeMember Field.DepositAmount p.DepositAmount ++ ['}'], none)

/-! ## The MySQL server behind `db.DB` -/

/-- The two tables of `createTables`. -/
inductive Table where
  | payment_events
  | skipped_messages
  deriving DecidableEq

/-- A row of either table: `user_id INT, payment_id INT PRIMARY KEY, deposit_amount INT`. -/
structure Row where
  user_id : Int
  payment_id : Int
  deposit_amount : Int
  deriving DecidableEq

/-- The statements the program executes:
`CREATE TABLE IF NOT EXISTS t (user_id INT, payment_id INT PRIMARY KEY, deposit_amount INT);`
from `createTables`, and `INSERT INTO t VALUES (?, ?, ?)` from `Consume`. -/
inductive Stmt where
  | createTable (t : Table)
  | insert (t : Table) (user_id payment_id deposit_amount : Int)
  deriving DecidableEq

/-- A database handle (`*sql.DB`) over a store with states `σ`: `Exec` runs a
statement and returns the error, if any. -/
structure SqlDB (σ : Type) where
  Exec : Stmt → σ → σ × Option GoError

/-- The contents of the database: each table is absent (`none`) or holds its
rows in insertion order. -/
structure Database where
  payment_events : Option (List Row)
  skipped_messages : Option (List Row)
  deriving DecidableEq

/-- The rows of a table, if it exists. -/
def Database.table (d : Database) : Table → Option (List Row)
  | .payment_events => d.payment_events
  | .skipped_messages => d.skipped_messages

/-- Replacing the rows of a table. -/
def Database.setTable (d : Database) (t : Table) (rows : List Row) : Database :=
  match t with
  | .payment_events => { d with payment_events := some rows }
  | .skipped_messages => { d with skipped_messages := some rows }

/-- The values a MySQL `INT` column holds. -/
def inColumnRange (v : Int) : Prop := -(2 ^ 31) ≤ v ∧ v < 2 ^ 31

instance (v : Int) : Decidable (inColumnRange v) := by
  unfold inColumnRange; infer_instance

/-- Whether some row has the given primary key. -/
def hasKey (rows : List Row) (payment_id : Int) : Bool :=
  rows.any (fun r => decide (r.payment_id = payment_id))

/-- MySQL error numbers. -/
def ER_NO_SUCH_TABLE : Nat := 1146

/-- MySQL error number for a violated unique or primary key. -/
def ER_DUP_ENTRY : Nat := 1062

/-- MySQL error number for a value outside the column's range. -/
def ER_WARN_DATA_OUT_OF_RANGE : Nat := 1264

/-- A MySQL server (in its default strict SQL mode) executing the program's
statements on the tables as `createTables` declares them.  `CREATE TABLE IF NOT
EXISTS` creates an absent table empty and leaves an existing one alone.
`INSERT` fails with error 1146 on an absent table, with error 1264 when a value
does not fit its `INT` column, and with error 1062 when a row with the same
`payment_id` (the primary key) is already in the table; otherwise the row is
appended.  A failed statement changes nothing.  Only the error numbers matter
to the program; the message texts are abbreviated. -/
def mysqlExec (q : Stmt) (d : Database) : Database × Option GoError :=
  match q with
  | .createTable t =>
    match d.table t with
    | some _ => (d, none)
    | none => (d.setTable t [], none)
  | .insert t user_id payment_id deposit_amount =>
    match d.table t with
    | none => (d, some (GoError.mysql ER_NO_SUCH_TABLE "Table doesn't exist"))
    | some rows =>
      if inColumnRange user_id ∧ inColumnRange payment_id ∧ inColumnRange deposit_amount then
        if hasKey rows payment_id then
          (d, some (GoError.mysql ER_DUP_ENTRY "Duplicate entry for key 'PRIMARY'"))
        else
          (d.setTable t (rows ++ [{ user_id := user_id, payment_id := payment_id,
                                     deposit_amount := deposit_amount }]), none)
      else (d, some (GoError.mysql ER_WARN_DATA_OUT_OF_RANGE "Out of range value for column"))

/-- The handle `db.DB` when it is connected to such a server. -/
def mysqlServer : SqlDB Database := { Exec := mysqlExec }

/-! ## Traces -/

/-- The log lines the program writes, by the statement that writes them. -/
inductive LogLine where
  | connected
  | connectionFailed (attempt : Nat) (err : GoError)
  | tablesEnsured
  | failedUnmarshal (err : GoError)
  | insertedPayment (p : Payment)
  | duplicateMoved (p : Payment)
  | failedSkippedInsert (err : GoError)
  | failedPrimaryInsert (err : GoError)
  | failedMarshal (err : GoError)
  | failedPublish (err : GoError)
  | publishedMessage (p : Payment)
  deriving DecidableEq

/-- The messages of `log.Fatalf`, which ends the process. -/
inductive FatalLine where
  | connectAfterRetries (err : GoError)
  | failedCreateTable (err : GoError)
  | failedRegisterConsumer (err : GoError)
  deriving DecidableEq

/-- What the program does that the outside can see, in program order. -/
inductive Event where
  | connect (attempt : Nat)
  | sleep (seconds : Nat)
  | exec (q : Stmt) (err : Option GoError)
  | publish (queueName : String) (body : List Char) (err : Option GoError)
  | done
  | log (line : LogLine)
  | fatal (line : FatalLine)
  deriving DecidableEq

/-- The outcome of running a function that may end the process: the store
afterwards, the trace, and whether `log.Fatalf` was reached. -/
structure Run (σ : Type) where
  state : σ
  trace : List Event
  exited : Bool

/-! ## `internal/db/mysql.go` -/

/-- The outcome of one connection attempt of `InitDB`: the error of `sql.Open`
and, when that is `nil`, the error of `DB.Ping`. -/
structure Attempt where
  openErr : Option GoError
  pingErr : Option GoError

/-- The value of `err` after `DB, err = sql.Open(...)` and
`if err == nil { err = DB.Ping() }`. -/
def Attempt.err (a : Attempt) : Option GoError :=
  match a.openErr with
  | none => a.pingErr
  | some e => some e

/-- The two `CREATE TABLE IF NOT EXISTS` statements of `createTables`, in order. -/
def db.queries : List Stmt :=
  [Stmt.createTable Table.payment_events, Stmt.createTable Table.skipped_messages]

/-- The loop `for _, query := range queries` of `createTables`: a failing
statement ends the process through `log.Fatalf`. -/
def db.execAll {σ : Type} (DB : SqlDB σ) : List Stmt → σ → Run σ
  | [], s => { state := s, trace := [], exited := false }
  | query :: rest, s =>
    match DB.Exec query s with
    | (s1, some err) =>
      { state := s1
        trace := [Event.exec query (some err), Event.fatal (FatalLine.failedCreateTable err)]
        exited := true }
    | (s1, none) =>
      let r := db.execAll DB rest s1
      { state := r.state, trace := Event.exec query none :: r.trace, exited := r.exited }

/-- Go's `createTables()`. -/
def db.createTables {σ : Type} (DB : SqlDB σ) (s : σ) : Run σ :=
  db.execAll DB db.queries s

/-- The retry loop `for i := 1; i <= 5; i++` of `InitDB`, entered with loop
counter `i` and current `err`: the trace it leaves and the final `err`.
`outcome i` is what attempt `i` meets.  `fuel` bounds the number of iterations;
the loop condition ends the loop itself as soon as `fuel > 5`. -/
def db.retryLoop (outcome : Nat → Attempt) : Nat → Nat → Option GoError →
    List Event × Option GoError
  | 0, _, err => ([], err)
  | fuel + 1, i, err =>
    if i ≤ 5 then
      match (outcome i).err with
      | none => ([Event.connect i, Event.log LogLine.connected], none)
      | some e =>
        let r := db.retryLoop outcome fuel (i + 1) (some e)
        (Event.connect i :: Event.log (LogLine.connectionFailed i e) :: Event.sleep 2 :: r.1, r.2)
    else ([], err)

/-- Go's `InitDB(cfg)`.  The configuration only builds the connection string
handed to `sql.Open`, whose outcome is given by `outcome`; `DB` is the handle
the successful attempt leaves in the global `db.DB`. -/
def db.InitDB {σ : Type} (DB : SqlDB σ) (outcome : Nat → Attempt) (s : σ) : Run σ :=
  let r := db.retryLoop outcome 6 1 none
  match r.2 with
  | some err =>
    { state := s, trace := r.1 ++ [Event.fatal (FatalLine.connectAfterRetries err)],
      exited := true }
  | none =>
    let c := db.createTables DB s
    if c.exited then { state := c.state, trace := r.1 ++ c.trace, exited := true }
    else { state := c.state, trace := r.1 ++ c.trace ++ [Event.log LogLine.tablesEnsured],
           exited := false }

/-! ## `internal/consumer/consumer.go` -/

/-- The constant `MySQLDuplicateEntryCode`. -/
def consumer.MySQLDuplicateEntryCode : Nat := 1062

/-- Go's `isDuplicateKeyError(err)`. -/
def consumer.isDuplicateKeyError (err : Option GoError) : Bool :=
  match err with
  | none => false
  | some (GoError.mysql Number _) => Number == consumer.MySQLDuplicateEntryCode
  | some (GoError.other text) => strings.Contains text "Error 1062"

/-- The `INSERT INTO t VALUES (?, ?, ?)` statement with the three fields of `p`. -/
def consumer.insertStmt (t : Table) (p : Payment) : Stmt :=
  Stmt.insert t p.UserID p.PaymentID p.DepositAmount

/-- The body of the loop `for msg := range msgs` of `Consume`, run on the
body of one delivery: the store afterwards and the trace. -/
def consumer.handleMessage {σ : Type} (DB : SqlDB σ) (body : List Char) (s : σ) :
    σ × List Event :=
  match json.Unmarshal body { UserID := 0, PaymentID := 0, DepositAmount := 0 } with
  | (_, some err) => (s, [Event.log (LogLine.failedUnmarshal err)])
  | (p, none) =>
    match DB.Exec (consumer.insertStmt Table.payment_events p) s with
    | (s1, some err) =>
      if consumer.isDuplicateKeyError (some err) then
        match DB.Exec (consumer.insertStmt Table.skipped_messages p) s1 with
        | (s2, some skipErr) =>
          (s2, [Event.exec (consumer.insertStmt Table.payment_events p) (some err),
                Event.exec (consumer.insertStmt Table.skipped_messages p) (some skipErr),
                Event.log (LogLine.failedSkippedInsert skipErr)])
        | (s2, none) =>
          (s2, [Event.exec (consumer.insertStmt Table.payment_events p) (some err),
                Event.exec (consumer.insertStmt Table.skipped_messages p) none,
                Event.log (LogLine.duplicateMoved p)])
      else
        (s1, [Event.exec (consumer.insertStmt Table.payment_events p) (some err),
              Event.log (LogLine.failedPrimaryInsert err)])
    | (s1, none) =>
      (s1, [Event.exec (consumer.insertStmt Table.payment_events p) none,
            Event.log (LogLine.insertedPayment p)])

/-- The loop `for msg := range msgs` over the deliveries the channel hands
out before it is closed, in order. -/
def consumer.consumeLoop {σ : Type} (DB : SqlDB σ) : List (List Char) → σ → σ × List Event
  | [], s => (s, [])
  | body :: rest, s =>
    let r1 := consumer.handleMessage DB body s
    let r2 := consumer.consumeLoop DB rest r1.1
    (r2.1, r1.2 ++ r2.2)

/-- Go's `Consume(ch, queueName)`.  `registerErr` is the error of `ch.Consume`
(fatal when not `nil`), `msgs` the bodies of the deliveries that arrive. -/
def consumer.Consume {σ : Type} (DB : SqlDB σ) (registerErr : Option GoError)
    (msgs : List (List Char)) (s : σ) : Run σ :=
  match registerErr with
  | some err =>
    { state := s, trace := [Event.fatal (FatalLine.failedRegisterConsumer err)], exited := true }
  | none =>
    let r := consumer.consumeLoop DB msgs s
    { state := r.1, trace := r.2, exited := false }

/-! ## `internal/publisher/publisher.go` -/

/-- An AMQP channel over a broker with states `τ`: `Publish` hands a body to
the queue named and returns the error, if any. -/
structure AmqpChannel (τ : Type) where
  Publish : String → List Char → τ → τ × Option GoError

/-- The seed batch `payments` of `Publish`. -/
def publisher.payments : List Payment :=
  [{ UserID := 1, PaymentID := 1, DepositAmount := 10 },
   { UserID := 1, PaymentID := 2, DepositAmount := 20 },
   { UserID := 2, PaymentID := 3, DepositAmount := 20 }]

/-- The loop `for _, p := range payments` of `Publish`. -/
def publisher.publishLoop {τ : Type} (ch : AmqpChannel τ) (queueName : String) :
    List Payment → τ → τ × List Event
  | [], t => (t, [])
  | p :: rest, t =>
    match json.Marshal p with
    | (_, some err) =>
      let r := publisher.publishLoop ch queueName rest t
      (r.1, Event.log (LogLine.failedMarshal err) :: r.2)
    | (body, none) =>
      match ch.Publish queueName body t with
      | (t1, some err) =>
        let r := publisher.publishLoop ch queueName rest t1
        (r.1, Event.publish queueName body (some err)
                :: Event.log (LogLine.failedPublish err) :: r.2)
      | (t1, none) =>
        let r := publisher.publishLoop ch queueName rest t1
        (r.1, Event.publish queueName body none
                :: Event.log (LogLine.publishedMessage p) :: r.2)

/-- Go's `Publish(ch, queueName, done)`; `Event.done` is the send `done <- true`. -/
def publisher.Publish {τ : Type} (ch : AmqpChannel τ) (queueName : String) (t : τ) :
    τ × List Event :=
  let r := publisher.publishLoop ch queueName publisher.payments t
  (r.1, r.2 ++ [Event.done])

/-! ## `cmd/app/main.go`: what reaches the queue -/

/-- A channel to a broker that accepts every publish and keeps the queue in
arrival order. -/
def fifoBroker : AmqpChannel (List (List Char)) :=
  { Publish := fun _ body queue => (queue ++ [body], none) }

/-- The message `duplicate` that `main` publishes after the seed batch. -/
def duplicate : Payment := { UserID := 1, PaymentID := 1, DepositAmount := 10 }

/-- The queue `payments` as `main` fills it: purged, then the seed batch by
`Publish`, then the marshalled `duplicate`. -/
def mainQueue : List (List Char) :=
  let seeded := (publisher.Publish fifoBroker "payments" []).1
  (fifoBroker.Publish "payments" (json.Marshal duplicate).1 seeded).1

/-! ## Observations used in the statements -/

/-- The zero value `var p Payment` that `Consume` decodes into. -/
def zeroPayment : Payment := { UserID := 0, PaymentID := 0, DepositAmount := 0 }

/-- The row that holds the three fields of a payment. -/
def Payment.row (p : Payment) : Row :=
  { user_id := p.UserID, payment_id := p.PaymentID, deposit_amount := p.DepositAmount }

/-- Whether `Consume` decodes the body without error. -/
def decodable (body : List Char) : Bool :=
  (json.Unmarshal body zeroPayment).2.isNone

/-- JSON values that are a type error for an `int` field: everything but
`null` and the number literals `strconv.ParseInt` accepts. -/
def JSON.rejectedAsInt : JSON → Bool
  | .null => false
  | .number lit => (strconv.ParseInt lit).isNone
  | _ => true

/-- The connection attempts in a trace, by loop counter. -/
def attempts : List Event → List Nat
  | [] => []
  | Event.connect i :: rest => i :: attempts rest
  | _ :: rest => attempts rest

/-- The statements executed in a trace. -/
def execs : List Event → List Stmt
  | [] => []
  | Event.exec q _ :: rest => q :: execs rest
  | _ :: rest => execs rest

/-- The bodies handed to `ch.Publish` in a trace. -/
def published : List Event → List (List Char)
  | [] => []
  | Event.publish _ body _ :: rest => body :: published rest
  | _ :: rest => published rest

/-- The rows of the primary store `payment_events` (none while the table is absent). -/
def Database.primaryRows (d : Database) : List Row := d.payment_events.getD []

/-- The rows of the secondary store `skipped_messages` (none while the table is absent). -/
def Database.skippedRows (d : Database) : List Row := d.skipped_messages.getD []

/-- The primary keys of a list of rows. -/
def keys (rows : List Row) : List Int := rows.map (fun r => r.payment_id)

/-! ## Decimal text: `formatInt` and `strconv.ParseInt` -/

theorem digitsRev_eq_digits : ∀ (fuel n : Nat), n ≤ fuel → digitsRev fuel n = Nat.digits 10 n := by
  intro fuel
  induction fuel with
  | zero =>
    intro n hn
    have : n = 0 := by omega
    subst this
    simp [digitsRev]
  | succ fuel ih =>
    intro n hn
    by_cases h0 : n = 0
    · subst h0
      simp [digitsRev]
    · have hpos : 0 < n := Nat.pos_of_ne_zero h0
      rw [Nat.digits_def' (by norm_num) hpos]
      simp only [digitsRev, h0, if_false]
      rw [ih (n / 10) (by omega)]

theorem isDigit_digitChar (d : Nat) (h : d < 10) : isDigit (digitChar d) = true := by
  interval_cases d <;> rfl

theorem digitVal_digitChar (d : Nat) (h : d < 10) : digitVal (digitChar d) = d := by
  interval_cases d <;> rfl

theorem digitChar_ne_zero (d : Nat) (h : d < 10) (h0 : d ≠ 0) : digitChar d ≠ '0' := by
  interval_cases d <;> first | exact absurd rfl h0 | decide

theorem foldr_digitVal (L : List Nat) (h : ∀ d ∈ L, d < 10) :
    L.foldr (fun d acc => acc * 10 + digitVal (digitChar d)) 0 = Nat.ofDigits 10 L := by
  induction L with
  | nil => simp
  | cons a L ih =>
    have ha : a < 10 := h a (List.mem_cons_self _ _)
    have hL : ∀ d ∈ L, d < 10 := fun d hd => h d (List.mem_cons_of_mem _ hd)
    simp only [List.foldr_cons, Nat.ofDigits_cons, ih hL, digitVal_digitChar a ha]
    ring

/-- The text of a positive number: its digits, most significant first. -/
theorem formatUint_pos (n : Nat) (h : n ≠ 0) :
    formatUint n = ((Nat.digits 10 n).reverse.map digitChar) := by
  simp [formatUint, h, digitsRev_eq_digits n n (le_refl n)]

theorem formatUint_all_digits (n : Nat) : (formatUint n).all isDigit = true := by
  by_cases h : n = 0
  · subst h; rfl
  · rw [formatUint_pos n h]
    simp only [List.all_eq_true, List.mem_map, List.mem_reverse]
    rintro c ⟨d, hd, rfl⟩
    exact isDigit_digitChar d (Nat.digits_lt_base (by norm_num) hd)

theorem formatUint_ne_nil (n : Nat) : formatUint n ≠ [] := by
  by_cases h : n = 0
  · subst h; simp [formatUint]
  · rw [formatUint_pos n h]
    simp [Nat.digits_ne_nil_iff_ne_zero, h]

theorem parseUint_formatUint (n : Nat) : parseUint (formatUint n) = some n := by
  have hne := formatUint_ne_nil n
  have hall := formatUint_all_digits n
  unfold parseUint
  rw [if_neg (by simpa [List.isEmpty_iff] using hne), if_pos hall]
  by_cases h : n = 0
  · subst h; rfl
  · rw [formatUint_pos n h, List.foldl_map, List.foldl_reverse]
    rw [foldr_digitVal _ (fun d hd => Nat.digits_lt_base (by norm_num) hd)]
    rw [Nat.ofDigits_digits]

theorem formatUint_head (n : Nat) :
    ∃ d ds, formatUint n = d :: ds ∧ isDigit d = true ∧ (d = '0' → ds = []) ∧
      ds.all isDigit = true := by
  by_cases h : n = 0
  · subst h
    exact ⟨'0', [], rfl, rfl, fun _ => rfl, rfl⟩
  · have hall := formatUint_all_digits n
    have hpos := formatUint_pos n h
    have hne : Nat.digits 10 n ≠ [] := by simp [Nat.digits_ne_nil_iff_ne_zero, h]
    have hlast := Nat.getLast_digit_ne_zero 10 h
    obtain ⟨init, last, hsplit⟩ : ∃ init last, Nat.digits 10 n = init ++ [last] :=
      ⟨_, _, (List.dropLast_append_getLast hne).symm⟩
    have hlast' : last ≠ 0 := by
      have : (Nat.digits 10 n).getLast hne = last := by
        simp [hsplit]
      rw [this] at hlast
      exact hlast
    have hlt : last < 10 :=
      Nat.digits_lt_base (by norm_num) (by rw [hsplit]; simp)
    refine ⟨digitChar last, init.reverse.map digitChar, ?_, isDigit_digitChar last hlt, ?_, ?_⟩
    · rw [hpos, hsplit]; simp
    · intro h0
      exact absurd h0 (digitChar_ne_zero last hlt hlast')
    · rw [hpos, hsplit] at hall
      simp at hall ⊢
      exact hall.2

theorem takeDigits_append (ds : List Char) (c : Char) (rest : List Char)
    (hds : ds.all isDigit = true) (hc : isDigit c = false) :
    takeDigits (ds ++ c :: rest) = (ds, c :: rest) := by
  induction ds with
  | nil => simp [takeDigits, hc]
  | cons d ds ih =>
    simp only [List.all_cons, Bool.and_eq_true] at hds
    simp [takeDigits, hds.1, ih hds.2]

theorem scanInteger_formatUint (n : Nat) (c : Char) (rest : List Char)
    (hc : c = ',' ∨ c = '}') :
    scanInteger (formatUint n ++ c :: rest) = some (formatUint n, c :: rest) := by
  obtain ⟨d, ds, hf, hd, hzero, hds⟩ := formatUint_head n
  have hcd : isDigit c = false := by
    rcases hc with rfl | rfl <;> rfl
  rw [hf]
  by_cases h0 : d = '0'
  · rw [hzero h0, h0]
    simp [scanInteger]
  · simp [scanInteger, h0, hd, takeDigits_append ds c rest hds hcd]

theorem scanNumber_formatInt (a : Int) (c : Char) (rest : List Char)
    (hc : c = ',' ∨ c = '}') :
    scanNumber (formatInt a ++ c :: rest) = some (formatInt a, c :: rest) := by
  have hfrac : scanFraction (c :: rest) = some ([], c :: rest) := by
    rcases hc with rfl | rfl <;> rfl
  obtain ⟨d, ds, hf, hd, -, -⟩ := formatUint_head a.natAbs
  have hdm : d ≠ '-' := by
    rintro rfl
    exact absurd hd (by decide)
  have hint := scanInteger_formatUint a.natAbs c rest hc
  unfold formatInt
  by_cases hneg : a < 0
  · simp [hneg, scanNumber, hint, hfrac]
  · simp only [hneg, if_false]
    rw [hf] at hint ⊢
    simp only [List.cons_append] at hint
    simp [scanNumber, hdm, hint, hfrac]

theorem ParseInt_formatInt (a : Int) (h : inInt64 a) :
    strconv.ParseInt (formatInt a) = some a := by
  obtain ⟨d, ds, hf, hd, -, -⟩ := formatUint_head a.natAbs
  have hparse := parseUint_formatUint a.natAbs
  have hdm : d ≠ '-' := by
    rintro rfl
    exact absurd hd (by decide)
  have hdp : d ≠ '+' := by
    rintro rfl
    exact absurd hd (by decide)
  unfold inInt64 at h
  unfold formatInt
  by_cases hneg : a < 0
  · have hle : a.natAbs ≤ 2 ^ 63 := by omega
    simp only [hneg, if_true, strconv.ParseInt, hparse, hle]
    congr 1
    omega
  · have hlt : a.natAbs < 2 ^ 63 := by omega
    simp only [hneg, if_false]
    rw [hf] at hparse ⊢
    simp only [strconv.ParseInt, hdm, hdp, if_false, hparse, hlt, if_true]
    congr 1
    omega

/-! ## Parsing what `json.Marshal` writes -/

theorem formatInt_head (a : Int) :
    ∃ c cs, formatInt a = c :: cs ∧ (c = '-' ∨ isDigit c = true) := by
  obtain ⟨d, ds, hf, hd, -, -⟩ := formatUint_head a.natAbs
  unfold formatInt
  by_cases hneg : a < 0
  · exact ⟨'-', formatUint a.natAbs, by simp [hneg], Or.inl rfl⟩
  · exact ⟨d, ds, by simp [hneg, hf], Or.inr hd⟩

theorem isDigit_bounds (c : Char) (h : isDigit c = true) : 48 ≤ c.toNat ∧ c.toNat ≤ 57 := by
  simpa [isDigit] using h

theorem numberStart_not_special (c : Char) (h : c = '-' ∨ isDigit c = true) :
    isSpace c = false ∧ c ≠ '{' ∧ c ≠ '[' ∧ c ≠ '"' ∧ c ≠ 't' ∧ c ≠ 'f' ∧ c ≠ 'n' := by
  rcases h with rfl | h
  · decide
  · have hb := isDigit_bounds c h
    refine ⟨?_, ?_, ?_, ?_, ?_, ?_, ?_⟩
    · simp only [isSpace, Bool.or_eq_false_iff, decide_eq_false_iff_not]
      refine ⟨⟨⟨?_, ?_⟩, ?_⟩, ?_⟩ <;> (rintro rfl; revert hb; decide)
    all_goals (rintro rfl; revert hb; decide)

theorem parseValue_formatInt (fuel : Nat) (a : Int) (c : Char) (rest : List Char)
    (hc : c = ',' ∨ c = '}') :
    parseValue (fuel + 1) (formatInt a ++ c :: rest)
      = some (JSON.number (formatInt a), c :: rest) := by
  have hscan := scanNumber_formatInt a c rest hc
  obtain ⟨h, hs, hf, hh⟩ := formatInt_head a
  obtain ⟨h1, h2, h3, h4, h5, h6, h7⟩ := numberStart_not_special h hh
  rw [hf] at hscan ⊢
  simp only [List.cons_append] at hscan ⊢
  simp [parseValue, skipSpace, h1, h2, h3, h4, h5, h6, h7, hscan]

theorem scanString_plain (key : List Char)
    (hkey : ∀ c ∈ key, c ≠ '"' ∧ c ≠ '\\' ∧ ¬ c.toNat < 0x20) :
    ∀ (fuel : Nat) (rest : List Char), key.length < fuel →
      scanString fuel (key ++ '"' :: rest) = some (key, rest) := by
  induction key with
  | nil =>
    intro fuel rest hlen
    obtain ⟨f, rfl⟩ : ∃ f, fuel = f + 1 := ⟨fuel - 1, by simp at hlen; omega⟩
    simp [scanString]
  | cons k key ih =>
    intro fuel rest hlen
    obtain ⟨f, rfl⟩ : ∃ f, fuel = f + 1 := ⟨fuel - 1, by simp at hlen; omega⟩
    obtain ⟨h1, h2, h3⟩ := hkey k (List.mem_cons_self _ _)
    have ih' := ih (fun c hc => hkey c (List.mem_cons_of_mem _ hc)) f rest
      (by simp at hlen; omega)
    simp [scanString, h1, h2, h3, ih']

theorem tag_plain (fld : Field) :
    ∀ c ∈ fld.tag, c ≠ '"' ∧ c ≠ '\\' ∧ ¬ c.toNat < 0x20 := by
  cases fld <;> decide

theorem scanString_tag (fld : Field) (n : Nat) (rest : List Char) :
    scanString (fld.tag.length + n + 1) (fld.tag ++ '"' :: rest) = some (fld.tag, rest) :=
  scanString_plain fld.tag (tag_plain fld) _ rest (by omega)

theorem parseMembers_member (fuel : Nat) (fld : Field) (a : Int) (rest : List Char) :
    parseMembers (fuel + 2) (encodeMember fld a ++ ',' :: rest)
      = (parseMembers (fuel + 1) rest).map
          (fun p => ((fld.tag, JSON.number (formatInt a)) :: p.1, p.2)) := by
  have hval := parseValue_formatInt fuel a ',' rest (Or.inl rfl)
  simp only [encodeMember, List.cons_append, List.append_assoc]
  rw [parseMembers]
  simp [skipSpace, isSpace, scanString_tag, hval]

theorem parseMembers_last (fuel : Nat) (fld : Field) (a : Int) (rest : List Char) :
    parseMembers (fuel + 2) (encodeMember fld a ++ '}' :: rest)
      = some ([(fld.tag, JSON.number (formatInt a))], rest) := by
  have hval := parseValue_formatInt fuel a '}' rest (Or.inr rfl)
  simp only [encodeMember, List.cons_append, List.append_assoc]
  rw [parseMembers]
  simp [skipSpace, isSpace, scanString_tag, hval]

/-- The syntax pass accepts the encoder's output and reads back the three
members with their number literals. -/
theorem parseJSON_Marshal (p : Payment) :
    parseJSON (json.Marshal p).1
      = some (JSON.object
          [(Field.UserID.tag, JSON.number (formatInt p.UserID)),
           (Field.PaymentID.tag, JSON.number (formatInt p.PaymentID)),
           (Field.DepositAmount.tag, JSON.number (formatInt p.DepositAmount))]) := by
  obtain ⟨k, hk⟩ : ∃ k, (json.Marshal p).1.length = k + 4 :=
    ⟨(json.Marshal p).1.length - 4, by simp [json.Marshal, encodeMember]; omega⟩
  have h3 := parseMembers_last k Field.DepositAmount p.DepositAmount []
  have h2 := parseMembers_member (k + 1) Field.PaymentID p.PaymentID
    (encodeMember Field.DepositAmount p.DepositAmount ++ ['}'])
  have h1 := parseMembers_member (k + 2) Field.UserID p.UserID
    (encodeMember Field.PaymentID p.PaymentID ++ ',' ::
      (encodeMember Field.DepositAmount p.DepositAmount ++ ['}']))
  rw [h3] at h2
  rw [h2] at h1
  unfold parseJSON
  rw [hk]
  have hdata : (json.Marshal p).1 = '{' :: (encodeMember Field.UserID p.UserID ++ ',' ::
      (encodeMember Field.PaymentID p.PaymentID ++ ',' ::
        (encodeMember Field.DepositAmount p.DepositAmount ++ ['}']))) := by
    simp [json.Marshal]
  have hq : ∃ t, encodeMember Field.UserID p.UserID ++ ',' ::
      (encodeMember Field.PaymentID p.PaymentID ++ ',' ::
        (encodeMember Field.DepositAmount p.DepositAmount ++ ['}'])) = '"' :: t :=
    ⟨_, by simp [encodeMember]; rfl⟩
  obtain ⟨t, ht⟩ := hq
  rw [hdata, parseValue]
  rw [ht] at h1 ⊢
  simp [skipSpace, isSpace, h1]

/-! ## The parser's fuel is enough -/

theorem skipSpace_length_le (cs : List Char) : (skipSpace cs).length ≤ cs.length := by
  induction cs with
  | nil => simp [skipSpace]
  | cons c cs ih =>
    simp only [skipSpace]
    split_ifs
    · simp only [List.length_cons]; omega
    · exact le_refl _

theorem skipSpace_cons_length {cs : List Char} {c : Char} {rest : List Char}
    (h : skipSpace cs = c :: rest) : rest.length + 1 ≤ cs.length := by
  have := skipSpace_length_le cs
  rw [h] at this
  simpa using this

theorem takeDigits_length (cs : List Char) : (takeDigits cs).2.length ≤ cs.length := by
  induction cs with
  | nil => simp [takeDigits]
  | cons c cs ih =>
    simp only [takeDigits]
    split_ifs
    · simp only [List.length_cons]; omega
    · exact le_refl _

theorem scanExponent_length (cs : List Char) (r : List Char × List Char)
    (h : scanExponent cs = some r) : r.2.length ≤ cs.length := by
  cases cs with
  | nil => simp [scanExponent] at h; subst h; simp
  | cons c rest =>
    simp only [scanExponent] at h
    split_ifs at h with h1 h2
    · simp only [Option.some.injEq] at h
      subst h
      simp only [List.length_cons]
      cases rest with
      | nil => simp [takeDigits]
      | cons s rest2 =>
        simp only []
        split_ifs
        · have := takeDigits_length rest2
          simp only [List.length_cons]; omega
        · have := takeDigits_length (s :: rest2)
          simp only [List.length_cons] at this ⊢; omega
    · simp only [Option.some.injEq] at h
      subst h
      exact le_refl _

theorem scanFraction_length (cs : List Char) (r : List Char × List Char)
    (h : scanFraction cs = some r) : r.2.length ≤ cs.length := by
  cases cs with
  | nil => simp [scanFraction] at h; subst h; simp
  | cons c rest =>
    simp only [scanFraction] at h
    split_ifs at h with h1 h2
    · simp only [Option.map_eq_some'] at h
      obtain ⟨p, hp, rfl⟩ := h
      have h1 := scanExponent_length _ _ hp
      have h2 := takeDigits_length rest
      simp only [List.length_cons]; omega
    · exact scanExponent_length _ _ h

theorem scanInteger_length (cs : List Char) (r : List Char × List Char)
    (h : scanInteger cs = some r) : r.2.length < cs.length := by
  cases cs with
  | nil => simp [scanInteger] at h
  | cons c rest =>
    simp only [scanInteger] at h
    split_ifs at h
    · simp only [Option.some.injEq] at h; subst h; simp
    · simp only [Option.some.injEq] at h; subst h
      have := takeDigits_length rest
      simp only [List.length_cons]; omega

theorem scanNumber_length (cs : List Char) (r : List Char × List Char)
    (h : scanNumber cs = some r) : r.2.length < cs.length := by
  simp only [scanNumber] at h
  split at h
  · simp at h
  · rename_i ip r1 hint
    split at h
    · simp at h
    · rename_i fp r2 hfrac
      simp only [Option.some.injEq] at h
      subst h
      have h1 := scanInteger_length _ _ hint
      have h2 := scanFraction_length _ _ hfrac
      simp only at h1 h2 ⊢
      cases cs with
      | nil => simp at h1
      | cons c rest =>
        simp only at h1
        split_ifs at h1
        · simp only [List.length_cons] at h1 ⊢; omega
        · simp only [List.length_cons] at h1 ⊢; omega

theorem dropLiteral_length (lit cs rest : List Char) (h : dropLiteral lit cs = some rest) :
    rest.length ≤ cs.length := by
  induction lit generalizing cs with
  | nil => simp [dropLiteral] at h; subst h; exact le_refl _
  | cons l ls ih =>
    cases cs with
    | nil => simp [dropLiteral] at h
    | cons c cs =>
      simp only [dropLiteral] at h
      split_ifs at h
      have := ih cs h
      simp only [List.length_cons]; omega

theorem scanString_map_step (f : Nat) (x : List Char) (ch : Char) (r : List Char × List Char)
    (ih : ∀ (cs : List Char) (r : List Char × List Char), scanString f cs = some r →
      r.2.length < cs.length ∧ ∀ g, cs.length ≤ g → scanString g cs = some r)
    (h : (scanString f x).map (fun p => (ch :: p.1, p.2)) = some r) :
    r.2.length < x.length ∧
      ∀ g, x.length ≤ g → (scanString g x).map (fun p => (ch :: p.1, p.2)) = some r := by
  simp only [Option.map_eq_some'] at h
  obtain ⟨p, hp, rfl⟩ := h
  obtain ⟨h1, h2⟩ := ih x p hp
  refine ⟨h1, fun g hg => ?_⟩
  rw [h2 g hg]
  rfl

/-- A string literal is read the same with any fuel from the length of the
input on, and reading it consumes input. -/
theorem scanString_fuel : ∀ (f : Nat) (cs : List Char) (r : List Char × List Char),
    scanString f cs = some r →
      r.2.length < cs.length ∧ ∀ g, cs.length ≤ g → scanString g cs = some r := by
  intro f
  induction f with
  | zero => intro cs r h; simp [scanString] at h
  | succ f ih =>
    intro cs r h
    cases cs with
    | nil => simp [scanString] at h
    | cons c cs =>
      have key : ∀ (x : List Char) (ch : Char), x.length ≤ cs.length →
          (scanString f x).map (fun p => (ch :: p.1, p.2)) = some r →
          r.2.length < (c :: cs).length ∧
            ∀ g, cs.length ≤ g → (scanString g x).map (fun p => (ch :: p.1, p.2)) = some r := by
        intro x ch hx hm
        obtain ⟨h1, h2⟩ := scanString_map_step f x ch r ih hm
        refine ⟨by simp only [List.length_cons]; omega, fun g hg => h2 g (by omega)⟩
      suffices hs : r.2.length < (c :: cs).length ∧
          ∀ g, cs.length ≤ g → scanString (g + 1) (c :: cs) = some r by
        refine ⟨hs.1, fun g hg => ?_⟩
        obtain ⟨g', rfl⟩ : ∃ g', g = g' + 1 :=
          ⟨g - 1, by simp only [List.length_cons] at hg; omega⟩
        exact hs.2 g' (by simp only [List.length_cons] at hg; omega)
      simp only [scanString] at h ⊢
      by_cases hq : c = '"'
      · simp only [hq, if_true, Option.some.injEq] at h ⊢
        subst h
        exact ⟨by simp, fun _ _ => rfl⟩
      · simp only [hq, if_false] at h ⊢
        by_cases hb : c = '\\'
        · subst hb
          simp only [if_true] at h ⊢
          cases cs with
          | nil => simp at h
          | cons e rest =>
            simp only at h ⊢
            by_cases hu : e = 'u'
            · simp only [hu, if_true] at h ⊢
              cases hget : getu4 ('\\' :: 'u' :: rest) with
              | none => simp [hget] at h
              | some r0 =>
                simp only [hget] at h ⊢
                by_cases hsur : isSurrogate r0 = true
                · simp only [hsur, if_true] at h ⊢
                  cases hdec : decodeSurrogates r0 (getu4 (List.drop 4 rest)) with
                  | some ch =>
                    simp only [hdec] at h ⊢
                    exact key _ ch (by simp only [List.length_drop, List.length_cons]; omega) h
                  | none =>
                    simp only [hdec] at h ⊢
                    exact key _ _ (by simp only [List.length_drop, List.length_cons]; omega) h
                · simp only [hsur] at h ⊢
                  exact key _ _ (by simp only [List.length_drop, List.length_cons]; omega) h
            · simp only [hu, if_false] at h ⊢
              split at h
              · simp at h
              · rename_i ch hch
                exact key _ ch (by simp only [List.length_cons]; omega) h
        · simp only [hb, if_false] at h ⊢
          by_cases hctl : c.toNat < 0x20
          · simp [hctl] at h
          · simp only [hctl, if_false] at h ⊢
            exact key cs c (le_refl _) h

/-- Reading a value, the members of an object or the elements of an array
consumes input, and gives the same result with any fuel from the number of
characters consumed on. -/
theorem parse_fuel : ∀ f : Nat,
    (∀ (cs : List Char) (r : JSON × List Char), parseValue f cs = some r →
      r.2.length < cs.length ∧
        ∀ g, cs.length - r.2.length ≤ g → parseValue g cs = some r) ∧
    (∀ (cs : List Char) (r : List (List Char × JSON) × List Char),
      parseMembers f cs = some r →
      r.2.length < cs.length ∧
        ∀ g, cs.length - r.2.length ≤ g → parseMembers g cs = some r) ∧
    (∀ (cs : List Char) (r : List JSON × List Char), parseElements f cs = some r →
      r.2.length < cs.length ∧
        ∀ g, cs.length - r.2.length ≤ g → parseElements g cs = some r) := by
  intro f
  induction f with
  | zero =>
    refine ⟨?_, ?_, ?_⟩ <;> intro cs r h
    · simp [parseValue] at h
    · simp [parseMembers] at h
    · simp [parseElements] at h
  | succ f ih =>
    obtain ⟨ihV, ihM, ihE⟩ := ih
    refine ⟨?_, ?_, ?_⟩
    · -- values
      intro cs r h
      rw [parseValue] at h
      split at h
      · simp at h
      · rename_i c rest hsk
        have hlen := skipSpace_cons_length hsk
        suffices hs : r.2.length < cs.length ∧
            ∀ g, cs.length - r.2.length ≤ g + 1 → parseValue (g + 1) cs = some r by
          refine ⟨hs.1, fun g hg => ?_⟩
          obtain ⟨g', rfl⟩ : ∃ g', g = g' + 1 := ⟨g - 1, by omega⟩
          exact hs.2 g' hg
        by_cases h1 : c = '{'
        · simp only [h1, if_true] at h
          split at h
          · simp at h
          · rename_i c2 rest2 hsk2
            have hlen2 := skipSpace_cons_length hsk2
            by_cases h2 : c2 = '}'
            · simp only [h2, if_true, Option.some.injEq] at h
              subst h
              refine ⟨by simp only; omega, fun g _ => ?_⟩
              rw [parseValue]
              simp only [hsk, h1, if_true, hsk2, h2]
            · simp only [h2, if_false, Option.map_eq_some'] at h
              obtain ⟨p, hp, rfl⟩ := h
              obtain ⟨q1, q2⟩ := ihM _ _ hp
              simp only [List.length_cons] at q1 q2
              refine ⟨by simp only; omega, fun g hg => ?_⟩
              rw [parseValue]
              simp only [hsk, h1, if_true, hsk2, h2, if_false]
              rw [q2 g (by simp only at hg; omega)]
              rfl
        · simp only [h1, if_false] at h
          by_cases h3 : c = '['
          · simp only [h3, if_true] at h
            split at h
            · simp at h
            · rename_i c2 rest2 hsk2
              have hlen2 := skipSpace_cons_length hsk2
              by_cases h2 : c2 = ']'
              · simp only [h2, if_true, Option.some.injEq] at h
                subst h
                refine ⟨by simp only; omega, fun g _ => ?_⟩
                rw [parseValue]
                simp only [hsk, h1, if_false, h3, if_true, hsk2, h2]
                simp
              · simp only [h2, if_false, Option.map_eq_some'] at h
                obtain ⟨p, hp, rfl⟩ := h
                obtain ⟨q1, q2⟩ := ihE _ _ hp
                simp only [List.length_cons] at q1 q2
                refine ⟨by simp only; omega, fun g hg => ?_⟩
                rw [parseValue]
                simp only [hsk, h1, if_false, h3, if_true, hsk2, h2]
                rw [q2 g (by simp only at hg; omega)]
                simp
          · simp only [h3, if_false] at h
            have hrest : r.2.length < cs.length := by
              split_ifs at h
              · simp only [Option.map_eq_some'] at h
                obtain ⟨p, hp, rfl⟩ := h
                have := (scanString_fuel _ _ _ hp).1
                simp only; omega
              · simp only [Option.map_eq_some'] at h
                obtain ⟨p, hp, rfl⟩ := h
                have := dropLiteral_length _ _ _ hp
                simp only; omega
              · simp only [Option.map_eq_some'] at h
                obtain ⟨p, hp, rfl⟩ := h
                have := dropLiteral_length _ _ _ hp
                simp only; omega
              · simp only [Option.map_eq_some'] at h
                obtain ⟨p, hp, rfl⟩ := h
                have := dropLiteral_length _ _ _ hp
                simp only; omega
              · simp only [Option.map_eq_some'] at h
                obtain ⟨p, hp, rfl⟩ := h
                have := scanNumber_length _ _ hp
                simp only [List.length_cons] at this
                simp only; omega
            refine ⟨hrest, fun g _ => ?_⟩
            rw [parseValue]
            simp only [hsk, h1, if_false, h3]
            exact h
    · -- members
      intro cs r h
      rw [parseMembers] at h
      split at h
      · simp at h
      · rename_i c rest hsk
        have hlen := skipSpace_cons_length hsk
        suffices hs : r.2.length < cs.length ∧
            ∀ g, cs.length - r.2.length ≤ g + 1 → parseMembers (g + 1) cs = some r by
          refine ⟨hs.1, fun g hg => ?_⟩
          obtain ⟨g', rfl⟩ : ∃ g', g = g' + 1 := ⟨g - 1, by omega⟩
          exact hs.2 g' hg
        by_cases h1 : c = '"'
        · simp only [h1, if_true] at h
          split at h
          · simp at h
          · rename_i key r1 hstr
            have hl1 := (scanString_fuel _ _ _ hstr).1
            simp only at hl1
            split at h
            · simp at h
            · rename_i c1 r2 hsk1
              have hlen1 := skipSpace_cons_length hsk1
              by_cases h2 : c1 = ':'
              · simp only [h2, if_true] at h
                split at h
                · simp at h
                · rename_i v r3 hval
                  obtain ⟨v1, v2⟩ := ihV _ _ hval
                  simp only at v1 v2
                  split at h
                  · simp at h
                  · rename_i c3 r4 hsk3
                    have hlen3 := skipSpace_cons_length hsk3
                    by_cases h4 : c3 = ','
                    · simp only [h4, if_true, Option.map_eq_some'] at h
                      obtain ⟨p, hp, rfl⟩ := h
                      obtain ⟨m1, m2⟩ := ihM _ _ hp
                      refine ⟨by simp only; omega, fun g hg => ?_⟩
                      rw [parseMembers]
                      simp only [hsk, h1, if_true, hstr, hsk1, h2]
                      rw [v2 g (by simp only at hg; omega)]
                      simp only [hsk3, h4, if_true]
                      rw [m2 g (by simp only at hg; omega)]
                      rfl
                    · simp only [h4, if_false] at h
                      by_cases h5 : c3 = '}'
                      · simp only [h5, if_true, Option.some.injEq] at h
                        subst h
                        refine ⟨by simp only; omega, fun g hg => ?_⟩
                        rw [parseMembers]
                        simp only [hsk, h1, if_true, hstr, hsk1, h2]
                        rw [v2 g (by simp only at hg; omega)]
                        simp [hsk3, h5]
                      · simp [h5] at h
              · simp [h2] at h
        · simp [h1] at h
    · -- elements
      intro cs r h
      rw [parseElements] at h
      split at h
      · simp at h
      · rename_i v r1 hval
        obtain ⟨v1, v2⟩ := ihV _ _ hval
        simp only at v1 v2
        suffices hs : r.2.length < cs.length ∧
            ∀ g, cs.length - r.2.length ≤ g + 1 → parseElements (g + 1) cs = some r by
          refine ⟨hs.1, fun g hg => ?_⟩
          obtain ⟨g', rfl⟩ : ∃ g', g = g' + 1 := ⟨g - 1, by omega⟩
          exact hs.2 g' hg
        split at h
        · simp at h
        · rename_i c r2 hsk
          have hlen := skipSpace_cons_length hsk
          by_cases h1 : c = ','
          · simp only [h1, if_true, Option.map_eq_some'] at h
            obtain ⟨p, hp, rfl⟩ := h
            obtain ⟨e1, e2⟩ := ihE _ _ hp
            refine ⟨by simp only; omega, fun g hg => ?_⟩
            rw [parseElements]
            rw [v2 g (by simp only at hg; omega)]
            simp only [hsk, h1, if_true]
            rw [e2 g (by simp only at hg; omega)]
            rfl
          · simp only [h1, if_false] at h
            by_cases h2 : c = ']'
            · simp only [h2, if_true, Option.some.injEq] at h
              subst h
              refine ⟨by simp only; omega, fun g hg => ?_⟩
              rw [parseElements]
              rw [v2 g (by simp only at hg; omega)]
              simp [hsk, h2]
            · simp [h2] at h

/-- The fuel `parseJSON` gives the parser never makes it refuse an input that
some amount of fuel accepts. -/
theorem parseJSON_fuel_enough (f : Nat) (data : List Char) (r : JSON × List Char)
    (h : parseValue f data = some r) : parseValue (data.length + 1) data = some r :=
  ((parse_fuel f).1 data r h).2 (data.length + 1) (by omega)

/-! ## Round trip through the wire form -/

theorem lookupField_tag (fld : Field) : lookupField fld.tag = some fld := by
  cases fld <;> rfl

theorem Unmarshal_Marshal (p : Payment) (h : p.wellFormed) (v : Payment) :
    json.Unmarshal (json.Marshal p).1 v = (p, none) := by
  obtain ⟨h1, h2, h3⟩ := h
  unfold json.Unmarshal
  rw [parseJSON_Marshal]
  simp [decodeObject, lookupField_tag, decodeField, ParseInt_formatInt, h1, h2, h3, Payment.set]

/-- C3. For every `Payment` (three Go `int`s), `json.Marshal` succeeds and
`json.Unmarshal` of the bytes it wrote succeeds and yields a `Payment` equal to
the original in all three fields, whatever the target held before. -/
theorem roundtrip_lossless (p : Payment) (h : p.wellFormed) (v : Payment) :
    (json.Marshal p).2 = none ∧
    (json.Unmarshal (json.Marshal p).1 v).2 = none ∧
    (json.Unmarshal (json.Marshal p).1 v).1.UserID = p.UserID ∧
    (json.Unmarshal (json.Marshal p).1 v).1.PaymentID = p.PaymentID ∧
    (json.Unmarshal (json.Marshal p).1 v).1.DepositAmount = p.DepositAmount := by
  rw [Unmarshal_Marshal p h v]
  exact ⟨rfl, rfl, rfl, rfl, rfl⟩

/-- The payment of `TestPaymentMarshalling`, decoded into a zero struct. -/
theorem roundtrip_lossless_witness :
    (json.Marshal ⟨1, 42, 100⟩).2 = none ∧
    (json.Unmarshal (json.Marshal ⟨1, 42, 100⟩).1 zeroPayment).2 = none ∧
    (json.Unmarshal (json.Marshal ⟨1, 42, 100⟩).1 zeroPayment).1.UserID = 1 ∧
    (json.Unmarshal (json.Marshal ⟨1, 42, 100⟩).1 zeroPayment).1.PaymentID = 42 ∧
    (json.Unmarshal (json.Marshal ⟨1, 42, 100⟩).1 zeroPayment).1.DepositAmount = 100 :=
  roundtrip_lossless ⟨1, 42, 100⟩ (by decide) zeroPayment

/-! ## The MySQL model: what a statement does to the tables -/

theorem insert_absent (d : Database) (t : Table) (u k a : Int) (h : d.table t = none) :
    mysqlExec (Stmt.insert t u k a) d
      = (d, some (GoError.mysql ER_NO_SUCH_TABLE "Table doesn't exist")) := by
  simp [mysqlExec, h]

theorem insert_outOfRange (d : Database) (t : Table) (u k a : Int) (rows : List Row)
    (h : d.table t = some rows)
    (hr : ¬ (inColumnRange u ∧ inColumnRange k ∧ inColumnRange a)) :
    mysqlExec (Stmt.insert t u k a) d
      = (d, some (GoError.mysql ER_WARN_DATA_OUT_OF_RANGE "Out of range value for column")) := by
  simp only [mysqlExec, h, if_neg hr]

theorem insert_duplicate (d : Database) (t : Table) (u k a : Int) (rows : List Row)
    (h : d.table t = some rows)
    (hr : inColumnRange u ∧ inColumnRange k ∧ inColumnRange a)
    (hk : hasKey rows k = true) :
    mysqlExec (Stmt.insert t u k a) d
      = (d, some (GoError.mysql ER_DUP_ENTRY "Duplicate entry for key 'PRIMARY'")) := by
  simp only [mysqlExec, h, if_pos hr, hk, if_true]

theorem insert_fresh (d : Database) (t : Table) (u k a : Int) (rows : List Row)
    (h : d.table t = some rows)
    (hr : inColumnRange u ∧ inColumnRange k ∧ inColumnRange a)
    (hk : hasKey rows k = false) :
    mysqlExec (Stmt.insert t u k a) d
      = (d.setTable t (rows ++ [{ user_id := u, payment_id := k, deposit_amount := a }]),
          none) := by
  simp [mysqlExec, h, hr, hk]

/-- A statement either leaves the database as it is, or creates an absent
table empty, or appends one row with a new key to an existing table. -/
theorem mysqlExec_cases (q : Stmt) (d : Database) :
    (mysqlExec q d).1 = d ∨
    (∃ t, d.table t = none ∧ (mysqlExec q d).1 = d.setTable t []) ∨
    (∃ t rows r, d.table t = some rows ∧ hasKey rows r.payment_id = false ∧
        inColumnRange r.user_id ∧ inColumnRange r.payment_id ∧ inColumnRange r.deposit_amount ∧
        q = Stmt.insert t r.user_id r.payment_id r.deposit_amount ∧
        (mysqlExec q d).2 = none ∧
        (mysqlExec q d).1 = d.setTable t (rows ++ [r])) := by
  cases q with
  | createTable t =>
    cases h : d.table t with
    | none => exact Or.inr (Or.inl ⟨t, h, by simp [mysqlExec, h]⟩)
    | some rows => exact Or.inl (by simp [mysqlExec, h])
  | insert t u k a =>
    cases h : d.table t with
    | none => exact Or.inl (by rw [insert_absent d t u k a h])
    | some rows =>
      by_cases hr : inColumnRange u ∧ inColumnRange k ∧ inColumnRange a
      · cases hk : hasKey rows k with
        | true => exact Or.inl (by rw [insert_duplicate d t u k a rows h hr hk])
        | false =>
          refine Or.inr (Or.inr ⟨t, rows, ⟨u, k, a⟩, h, hk, hr.1, hr.2.1, hr.2.2, rfl, ?_, ?_⟩)
          · rw [insert_fresh d t u k a rows h hr hk]
          · rw [insert_fresh d t u k a rows h hr hk]
      · exact Or.inl (by rw [insert_outOfRange d t u k a rows h hr])

theorem table_setTable_same (d : Database) (t : Table) (rows : List Row) :
    (d.setTable t rows).table t = some rows := by
  cases t <;> rfl

theorem hasKey_append (rows : List Row) (r : Row) (k : Int) :
    hasKey (rows ++ [r]) k = (hasKey rows k || decide (r.payment_id = k)) := by
  simp [hasKey, List.any_append]

theorem hasKey_iff_mem_keys (rows : List Row) (k : Int) :
    hasKey rows k = true ↔ k ∈ keys rows := by
  simp only [hasKey, keys, List.any_eq_true, decide_eq_true_eq, List.mem_map]

/-! ## The consumer's loop body -/

theorem handleMessage_undecodable {σ : Type} (DB : SqlDB σ) (body : List Char) (s : σ)
    (p : Payment) (err : GoError) (h : json.Unmarshal body zeroPayment = (p, some err)) :
    consumer.handleMessage DB body s = (s, [Event.log (LogLine.failedUnmarshal err)]) := by
  unfold zeroPayment at h
  simp [consumer.handleMessage, h]

theorem handleMessage_of_not_decodable {σ : Type} (DB : SqlDB σ) (body : List Char) (s : σ)
    (h : decodable body = false) :
    (consumer.handleMessage DB body s).1 = s := by
  unfold decodable at h
  cases hu : json.Unmarshal body zeroPayment with
  | mk p e =>
    cases e with
    | none => simp [hu] at h
    | some err => rw [handleMessage_undecodable DB body s p err hu]

/-- The store after a decodable message: the primary insert, followed by the
secondary insert exactly when the primary error is classified as a duplicate. -/
theorem handleMessage_state {σ : Type} (DB : SqlDB σ) (body : List Char) (s : σ)
    (p : Payment) (h : json.Unmarshal body zeroPayment = (p, none)) :
    (consumer.handleMessage DB body s).1 =
      if consumer.isDuplicateKeyError (DB.Exec (consumer.insertStmt Table.payment_events p) s).2
      then (DB.Exec (consumer.insertStmt Table.skipped_messages p)
              (DB.Exec (consumer.insertStmt Table.payment_events p) s).1).1
      else (DB.Exec (consumer.insertStmt Table.payment_events p) s).1 := by
  unfold zeroPayment at h
  simp only [consumer.handleMessage, h]
  rcases h1 : DB.Exec (consumer.insertStmt Table.payment_events p) s with ⟨s1, _ | e⟩
  · simp [consumer.isDuplicateKeyError]
  · by_cases hd : consumer.isDuplicateKeyError (some e) = true
    · rcases h2 : DB.Exec (consumer.insertStmt Table.skipped_messages p) s1 with ⟨s2, _ | e2⟩ <;>
        simp [hd, h2]
    · simp [hd]

/-! ## Duplicates and the secondary store -/

theorem isDuplicateKeyError_dupEntry (msg : String) :
    consumer.isDuplicateKeyError (some (GoError.mysql ER_DUP_ENTRY msg)) = true := by
  rfl

/-- The store after a decodable message whose key is already in the primary
store: only the secondary insert can change it, and only when the three
values fit their columns. -/
theorem handleMessage_state_of_dup (d : Database) (pe : List Row) (body : List Char)
    (p : Payment) (hpe : d.payment_events = some pe)
    (hbody : json.Unmarshal body zeroPayment = (p, none)) (hdup : p.PaymentID ∈ keys pe) :
    (consumer.handleMessage mysqlServer body d).1 =
      if inColumnRange p.UserID ∧ inColumnRange p.PaymentID ∧ inColumnRange p.DepositAmount
      then (mysqlExec (consumer.insertStmt Table.skipped_messages p) d).1
      else d := by
  have hk : hasKey pe p.PaymentID = true := (hasKey_iff_mem_keys pe p.PaymentID).2 hdup
  have ht : d.table Table.payment_events = some pe := hpe
  rw [handleMessage_state mysqlServer body d p hbody]
  by_cases hr : inColumnRange p.UserID ∧ inColumnRange p.PaymentID ∧ inColumnRange p.DepositAmount
  · simp only [mysqlServer, consumer.insertStmt, if_pos hr]
    rw [insert_duplicate d _ _ _ _ pe ht hr hk]
    simp [isDuplicateKeyError_dupEntry]
  · simp only [mysqlServer, consumer.insertStmt, if_neg hr]
    rw [insert_outOfRange d _ _ _ _ pe ht hr]
    simp [consumer.isDuplicateKeyError, ER_WARN_DATA_OUT_OF_RANGE,
      consumer.MySQLDuplicateEntryCode]

/-- C1, as the code has it. For every record whose payment_id already exists in the
primary store, is not yet in the secondary store, and whose three values fit
the INT columns, the consumer's handling of the message gets a duplicate-key
error from the primary insert, leaves the primary store unchanged, and adds
exactly one new row to the secondary store, with the user_id, payment_id and
deposit_amount of the message. -/
theorem duplicate_diverted_once (d : Database) (pe sm : List Row) (body : List Char)
    (p : Payment) (hpe : d.payment_events = some pe) (hsm : d.skipped_messages = some sm)
    (hbody : json.Unmarshal body zeroPayment = (p, none))
    (hdup : p.PaymentID ∈ keys pe) (hfresh : p.PaymentID ∉ keys sm)
    (hrange : inColumnRange p.UserID ∧ inColumnRange p.PaymentID ∧
      inColumnRange p.DepositAmount) :
    ∃ err, consumer.isDuplicateKeyError (some err) = true ∧
      consumer.handleMessage mysqlServer body d =
        ({ payment_events := some pe, skipped_messages := some (sm ++ [p.row]) },
         [Event.exec (consumer.insertStmt Table.payment_events p) (some err),
          Event.exec (consumer.insertStmt Table.skipped_messages p) none,
          Event.log (LogLine.duplicateMoved p)]) := by
  have hk : hasKey pe p.PaymentID = true := (hasKey_iff_mem_keys pe p.PaymentID).2 hdup
  have hk2 : hasKey sm p.PaymentID = false := by
    cases h : hasKey sm p.PaymentID with
    | false => rfl
    | true => exact absurd ((hasKey_iff_mem_keys sm p.PaymentID).1 h) hfresh
  have ht : d.table Table.payment_events = some pe := hpe
  have ht2 : d.table Table.skipped_messages = some sm := hsm
  refine ⟨GoError.mysql ER_DUP_ENTRY "Duplicate entry for key 'PRIMARY'", rfl, ?_⟩
  unfold zeroPayment at hbody
  simp only [consumer.handleMessage, hbody, mysqlServer, consumer.insertStmt]
  rw [insert_duplicate d _ _ _ _ pe ht hrange hk]
  simp only [isDuplicateKeyError_dupEntry, if_true]
  rw [insert_fresh d _ _ _ _ sm ht2 hrange hk2]
  cases d
  simp only at hpe
  simp [Database.setTable, Payment.row, hpe]

/-- The duplicate of `main`, met with one row in the primary store and an
empty secondary store. -/
theorem duplicate_diverted_once_witness :
    ∃ err, consumer.isDuplicateKeyError (some err) = true ∧
      consumer.handleMessage mysqlServer (json.Marshal duplicate).1
          { payment_events := some [⟨1, 1, 10⟩], skipped_messages := some [] } =
        ({ payment_events := some [⟨1, 1, 10⟩],
           skipped_messages := some ([] ++ [duplicate.row]) },
         [Event.exec (consumer.insertStmt Table.payment_events duplicate) (some err),
          Event.exec (consumer.insertStmt Table.skipped_messages duplicate) none,
          Event.log (LogLine.duplicateMoved duplicate)]) :=
  duplicate_diverted_once _ [⟨1, 1, 10⟩] [] _ duplicate rfl rfl
    (Unmarshal_Marshal duplicate (by decide) zeroPayment) (by decide) (by decide) (by decide)

/-- C1 as stated fails. With payment_id 1 in the primary store: (a) when the
secondary store already holds a row with payment_id 1, handling the message
`(1,1,10)` adds no row, the secondary insert failing on the primary key of
`skipped_messages`; (b) the message `(2147483648,1,10)` gets error 1264 from
the primary insert, not a duplicate-key error, and is not diverted. -/
theorem duplicate_not_diverted :
    (json.Unmarshal (json.Marshal duplicate).1 zeroPayment = (duplicate, none) ∧
     duplicate.PaymentID ∈ keys [⟨1, 1, 10⟩] ∧
     consumer.handleMessage mysqlServer (json.Marshal duplicate).1
        { payment_events := some [⟨1, 1, 10⟩], skipped_messages := some [⟨1, 1, 10⟩] } =
      ({ payment_events := some [⟨1, 1, 10⟩], skipped_messages := some [⟨1, 1, 10⟩] },
       [Event.exec (Stmt.insert Table.payment_events 1 1 10)
          (some (GoError.mysql 1062 "Duplicate entry for key 'PRIMARY'")),
        Event.exec (Stmt.insert Table.skipped_messages 1 1 10)
          (some (GoError.mysql 1062 "Duplicate entry for key 'PRIMARY'")),
        Event.log (LogLine.failedSkippedInsert
          (GoError.mysql 1062 "Duplicate entry for key 'PRIMARY'"))])) ∧
    (json.Unmarshal (json.Marshal ⟨2147483648, 1, 10⟩).1 zeroPayment
        = (⟨2147483648, 1, 10⟩, none) ∧
     (1 : Int) ∈ keys [⟨1, 1, 10⟩] ∧
     consumer.isDuplicateKeyError
        (some (GoError.mysql 1264 "Out of range value for column")) = false ∧
     consumer.handleMessage mysqlServer (json.Marshal ⟨2147483648, 1, 10⟩).1
        { payment_events := some [⟨1, 1, 10⟩], skipped_messages := some [] } =
      ({ payment_events := some [⟨1, 1, 10⟩], skipped_messages := some [] },
       [Event.exec (Stmt.insert Table.payment_events 2147483648 1 10)
          (some (GoError.mysql 1264 "Out of range value for column")),
        Event.log (LogLine.failedPrimaryInsert
          (GoError.mysql 1264 "Out of range value for column"))])) := by
  decide

/-- C2. `main` fills the queue with the seed batch (1,1,10), (1,2,20), (2,3,20), in
that order, followed by the duplicate (1,1,10); `createTables` on a database
without tables gives the two empty stores; consuming that queue from the empty
stores leaves exactly the three seed records in the primary store and exactly
the record (1,1,10) in the secondary store. -/
theorem seed_batch_then_duplicate :
    mainQueue = [(json.Marshal ⟨1, 1, 10⟩).1, (json.Marshal ⟨1, 2, 20⟩).1,
                 (json.Marshal ⟨2, 3, 20⟩).1, (json.Marshal ⟨1, 1, 10⟩).1] ∧
    (db.createTables mysqlServer { payment_events := none, skipped_messages := none }).state
      = { payment_events := some [], skipped_messages := some [] } ∧
    (consumer.Consume mysqlServer none mainQueue
        { payment_events := some [], skipped_messages := some [] }).state
      = { payment_events := some [⟨1, 1, 10⟩, ⟨1, 2, 20⟩, ⟨2, 3, 20⟩],
          skipped_messages := some [⟨1, 1, 10⟩] } := by
  decide

/-! ## Processing the same duplicate twice -/

theorem setTable_skipped_payment_events (d : Database) (rows : List Row) :
    (d.setTable Table.skipped_messages rows).payment_events = d.payment_events := by
  rfl

/-- C6, as the code has it. `skipped_messages` has `payment_id` as its primary key,
so the same skipped record cannot be inserted again: when the consumer
processes the same duplicate record twice (its payment_id in the primary store
both times), the second pass changes neither store, and over both passes at
most one row, the record itself, is added to the secondary store. -/
theorem second_pass_adds_nothing (d : Database) (pe : List Row) (body : List Char)
    (p : Payment) (hpe : d.payment_events = some pe)
    (hbody : json.Unmarshal body zeroPayment = (p, none)) (hdup : p.PaymentID ∈ keys pe) :
    (consumer.Consume mysqlServer none [body, body] d).state
      = (consumer.Consume mysqlServer none [body] d).state ∧
    (consumer.Consume mysqlServer none [body, body] d).state.payment_events = some pe ∧
    ((consumer.Consume mysqlServer none [body, body] d).state.skippedRows = d.skippedRows ∨
     (consumer.Consume mysqlServer none [body, body] d).state.skippedRows
        = d.skippedRows ++ [p.row]) := by
  have h1 := handleMessage_state_of_dup d pe body p hpe hbody hdup
  simp only [consumer.Consume, consumer.consumeLoop]
  by_cases hr : inColumnRange p.UserID ∧ inColumnRange p.PaymentID ∧ inColumnRange p.DepositAmount
  · rw [if_pos hr] at h1
    rcases mysqlExec_cases (consumer.insertStmt Table.skipped_messages p) d with
      hc | ⟨t, _, hc⟩ | ⟨t, rows, r, ht, hk, -, -, -, hq, -, hc⟩
    · -- the secondary insert failed: nothing changed
      rw [hc] at h1
      rw [h1, h1]
      exact ⟨rfl, hpe, Or.inl rfl⟩
    · -- an insert never creates a table
      exfalso
      simp only [consumer.insertStmt, mysqlExec] at hc
      revert hc
      cases hsk : d.table Table.skipped_messages with
      | none =>
        cases t <;> cases d <;> simp_all [Database.setTable, Database.table]
      | some rows =>
        simp only []
        split_ifs <;> cases t <;> cases d <;>
          simp_all [Database.setTable, Database.table]
    · -- the row went in: the second pass meets it
      simp only [consumer.insertStmt, Stmt.insert.injEq] at hq
      obtain ⟨rfl, hu, hkey, ha⟩ := hq
      have hrow : r = p.row := by
        cases r
        simp only [Payment.row, Row.mk.injEq]
        simp only at hu hkey ha
        exact ⟨hu.symm, hkey.symm, ha.symm⟩
      subst hrow
      rw [hc] at h1
      have hpe2 : (d.setTable Table.skipped_messages (rows ++ [p.row])).payment_events
          = some pe := by
        rw [setTable_skipped_payment_events]; exact hpe
      have h2 := handleMessage_state_of_dup _ pe body p hpe2 hbody hdup
      rw [if_pos hr] at h2
      have hdupRow : hasKey (rows ++ [p.row]) p.PaymentID = true := by
        rw [hasKey_append]; simp [Payment.row]
      have h3 := insert_duplicate (d.setTable Table.skipped_messages (rows ++ [p.row]))
        Table.skipped_messages p.UserID p.PaymentID p.DepositAmount (rows ++ [p.row])
        (table_setTable_same _ _ _) hr hdupRow
      simp only [consumer.insertStmt] at h2
      rw [h3] at h2
      rw [h1, h2]
      refine ⟨rfl, hpe2, Or.inr ?_⟩
      have hsk : d.skipped_messages = some rows := ht
      simp [Database.skippedRows, Database.setTable, hsk]
  · rw [if_neg hr] at h1
    rw [h1, h1]
    exact ⟨rfl, hpe, Or.inl rfl⟩

/-- The duplicate of `main` processed twice after the record is in the primary store. -/
theorem second_pass_adds_nothing_witness :
    (consumer.Consume mysqlServer none [(json.Marshal duplicate).1, (json.Marshal duplicate).1]
        { payment_events := some [⟨1, 1, 10⟩], skipped_messages := some [] }).state
      = (consumer.Consume mysqlServer none [(json.Marshal duplicate).1]
        { payment_events := some [⟨1, 1, 10⟩], skipped_messages := some [] }).state :=
  (second_pass_adds_nothing { payment_events := some [⟨1, 1, 10⟩], skipped_messages := some [] }
    [⟨1, 1, 10⟩] _ duplicate rfl
    (Unmarshal_Marshal duplicate (by decide) zeroPayment) (by decide)).1

/-- C6 as stated fails. With (1,1,10) in the primary store and an empty secondary
store, processing the duplicate (1,1,10) twice leaves one row for it in the
secondary store, not two: the second insert into `skipped_messages` fails with
the duplicate-key error 1062 and is only logged. -/
theorem same_duplicate_twice_one_row :
    consumer.consumeLoop mysqlServer [(json.Marshal duplicate).1, (json.Marshal duplicate).1]
        { payment_events := some [⟨1, 1, 10⟩], skipped_messages := some [] } =
      ({ payment_events := some [⟨1, 1, 10⟩], skipped_messages := some [⟨1, 1, 10⟩] },
       [Event.exec (Stmt.insert Table.payment_events 1 1 10)
          (some (GoError.mysql 1062 "Duplicate entry for key 'PRIMARY'")),
        Event.exec (Stmt.insert Table.skipped_messages 1 1 10) none,
        Event.log (LogLine.duplicateMoved ⟨1, 1, 10⟩),
        Event.exec (Stmt.insert Table.payment_events 1 1 10)
          (some (GoError.mysql 1062 "Duplicate entry for key 'PRIMARY'")),
        Event.exec (Stmt.insert Table.skipped_messages 1 1 10)
          (some (GoError.mysql 1062 "Duplicate entry for key 'PRIMARY'")),
        Event.log (LogLine.failedSkippedInsert
          (GoError.mysql 1062 "Duplicate entry for key 'PRIMARY'"))]) := by
  decide

/-! ## Decode errors -/

theorem saveError_ne_none (d : decodeState) (e : GoError) :
    (d.saveError e).savedError ≠ none := by
  unfold decodeState.saveError
  cases h : d.savedError with
  | none => simp
  | some e0 => simp [h]

theorem decodeField_keeps_error (d : decodeState) (f : Field) (v : JSON)
    (h : d.savedError ≠ none) : (decodeField d f v).savedError ≠ none := by
  cases v with
  | null => exact h
  | number lit =>
    simp only [decodeField]
    cases strconv.ParseInt lit with
    | none => exact saveError_ne_none d _
    | some n => exact h
  | bool b => exact saveError_ne_none d _
  | string s => exact saveError_ne_none d _
  | array xs => exact saveError_ne_none d _
  | object ms => exact saveError_ne_none d _

theorem decodeField_rejected (d : decodeState) (f : Field) (v : JSON)
    (h : v.rejectedAsInt = true) : (decodeField d f v).savedError ≠ none := by
  cases v with
  | null => simp [JSON.rejectedAsInt] at h
  | number lit =>
    simp only [JSON.rejectedAsInt, Option.isNone_iff_eq_none] at h
    simp only [decodeField, h]
    exact saveError_ne_none d _
  | bool b => exact saveError_ne_none d _
  | string s => exact saveError_ne_none d _
  | array xs => exact saveError_ne_none d _
  | object ms => exact saveError_ne_none d _

theorem decodeObject_keeps_error (members : List (List Char × JSON)) :
    ∀ d : decodeState, d.savedError ≠ none → (decodeObject d members).savedError ≠ none := by
  induction members with
  | nil => intro d h; exact h
  | cons m rest ih =>
    intro d h
    obtain ⟨key, v⟩ := m
    simp only [decodeObject]
    cases lookupField key with
    | none => exact ih d h
    | some f => exact ih _ (decodeField_keeps_error d f v h)

theorem decodeObject_rejected (members : List (List Char × JSON)) (v : JSON)
    (hmem : (Field.UserID.tag, v) ∈ members) (hv : v.rejectedAsInt = true) :
    ∀ d : decodeState, (decodeObject d members).savedError ≠ none := by
  induction members with
  | nil => simp at hmem
  | cons m rest ih =>
    intro d
    rcases List.mem_cons.1 hmem with hm | hm
    · subst hm
      simp only [decodeObject, lookupField_tag]
      exact decodeObject_keeps_error rest _ (decodeField_rejected d Field.UserID v hv)
    · obtain ⟨key, w⟩ := m
      simp only [decodeObject]
      cases lookupField key with
      | none => exact ih hm d
      | some f => exact ih hm _

/-- C4, as the code has it. For every payload that is a JSON object whose `user_id`
member holds a string, a boolean, an array, an object, or a number literal
that is not a 64-bit integer literal, `json.Unmarshal` into a `Payment`
returns a decode error, and the consumer discards the message: the store is
left as it was, no statement is executed, only the failure is logged. -/
theorem nonInteger_user_id_discarded {σ : Type} (DB : SqlDB σ) (s : σ) (body : List Char)
    (members : List (List Char × JSON)) (v : JSON)
    (hparse : parseJSON body = some (JSON.object members))
    (hmem : ("user_id".data, v) ∈ members) (hv : v.rejectedAsInt = true) :
    ∃ err, (json.Unmarshal body zeroPayment).2 = some err ∧
      consumer.handleMessage DB body s = (s, [Event.log (LogLine.failedUnmarshal err)]) := by
  have hne := decodeObject_rejected members v hmem hv { v := zeroPayment, savedError := none }
  obtain ⟨err, herr⟩ := Option.ne_none_iff_exists'.1 hne
  have hu : json.Unmarshal body zeroPayment
      = ((decodeObject { v := zeroPayment, savedError := none } members).v, some err) := by
    simp [json.Unmarshal, hparse, herr]
  exact ⟨err, by rw [hu], handleMessage_undecodable DB body s _ err hu⟩

/-- The payload of `TestConsumerUnmarshalInvalid`, met by the consumer with
both stores empty. -/
theorem nonInteger_user_id_discarded_witness :
    ∃ err, (json.Unmarshal
        "\x7b\"user_id\": \"invalid\", \"payment_id\": 10, \"deposit_amount\": 50\x7d".data
        zeroPayment).2 = some err ∧
      consumer.handleMessage mysqlServer
        "\x7b\"user_id\": \"invalid\", \"payment_id\": 10, \"deposit_amount\": 50\x7d".data
        { payment_events := some [], skipped_messages := some [] }
      = ({ payment_events := some [], skipped_messages := some [] },
         [Event.log (LogLine.failedUnmarshal err)]) :=
  nonInteger_user_id_discarded mysqlServer _ _
    [("user_id".data, JSON.string "invalid".data), ("payment_id".data, JSON.number "10".data),
     ("deposit_amount".data, JSON.number "50".data)]
    (JSON.string "invalid".data) rfl (by simp) rfl

/-- C4 as stated fails. (a) A `user_id` holding `null`, which is not an integer, is
no decode error: the field keeps 0, the other two fields are stored, and the
consumer inserts the record (0,10,50) into the primary store. (b) For the
string "invalid" decoding does fail, yet the struct it was decoding into has
by then received `payment_id` 10 and `deposit_amount` 50. -/
theorem null_user_id_is_inserted :
    (parseJSON "\x7b\"user_id\": null, \"payment_id\": 10, \"deposit_amount\": 50\x7d".data
        = some (JSON.object [("user_id".data, JSON.null),
            ("payment_id".data, JSON.number "10".data),
            ("deposit_amount".data, JSON.number "50".data)]) ∧
     json.Unmarshal "\x7b\"user_id\": null, \"payment_id\": 10, \"deposit_amount\": 50\x7d".data
        zeroPayment = (⟨0, 10, 50⟩, none) ∧
     consumer.handleMessage mysqlServer
        "\x7b\"user_id\": null, \"payment_id\": 10, \"deposit_amount\": 50\x7d".data
        { payment_events := some [], skipped_messages := some [] }
      = ({ payment_events := some [⟨0, 10, 50⟩], skipped_messages := some [] },
         [Event.exec (Stmt.insert Table.payment_events 0 10 50) none,
          Event.log (LogLine.insertedPayment ⟨0, 10, 50⟩)])) ∧
    (json.Unmarshal
        "\x7b\"user_id\": \"invalid\", \"payment_id\": 10, \"deposit_amount\": 50\x7d".data
        zeroPayment).1 = ⟨0, 10, 50⟩ :=
  ⟨⟨rfl, by decide, by decide⟩, by decide⟩

/-! ## Classifying errors -/

theorem hasLeading_iff (s sub : List Char) : hasLeading s sub = true ↔ sub <+: s := by
  induction s generalizing sub with
  | nil =>
    cases sub with
    | nil => simp [hasLeading]
    | cons d ds => simp [hasLeading]
  | cons c cs ih =>
    cases sub with
    | nil => simp [hasLeading]
    | cons d ds =>
      simp only [hasLeading, Bool.and_eq_true, beq_iff_eq, ih, List.cons_prefix_cons]
      constructor
      · rintro ⟨rfl, h⟩; exact ⟨rfl, h⟩
      · rintro ⟨rfl, h⟩; exact ⟨rfl, h⟩

theorem containsChars_iff (s sub : List Char) : containsChars s sub = true ↔ sub <:+: s := by
  induction s with
  | nil => simp [containsChars, List.isEmpty_iff]
  | cons c cs ih =>
    simp only [containsChars, Bool.or_eq_true, hasLeading_iff, ih, List.infix_cons_iff]

theorem execs_handleMessage {σ : Type} (DB : SqlDB σ) (body : List Char) (s : σ)
    (p : Payment) (h : json.Unmarshal body zeroPayment = (p, none)) :
    execs (consumer.handleMessage DB body s).2 =
      if consumer.isDuplicateKeyError (DB.Exec (consumer.insertStmt Table.payment_events p) s).2
      then [consumer.insertStmt Table.payment_events p,
            consumer.insertStmt Table.skipped_messages p]
      else [consumer.insertStmt Table.payment_events p] := by
  unfold zeroPayment at h
  simp only [consumer.handleMessage, h]
  rcases h1 : DB.Exec (consumer.insertStmt Table.payment_events p) s with ⟨s1, _ | e⟩
  · simp [consumer.isDuplicateKeyError, execs]
  · by_cases hd : consumer.isDuplicateKeyError (some e) = true
    · rcases h2 : DB.Exec (consumer.insertStmt Table.skipped_messages p) s1 with ⟨s2, _ | e2⟩ <;>
        simp [hd, h2, execs]
    · simp [hd, execs]

/-- C5. `isDuplicateKeyError` returns false for `nil`; for a structured MySQL
error it returns true exactly when the number is 1062, whatever the message;
for any other error it returns true exactly when the error text contains
"Error 1062".  For a decoded message the consumer executes the insert into
`skipped_messages` exactly when the classifier returns true on the error of
the insert into `payment_events`, against any database behaviour. -/
theorem classifier_and_divert :
    consumer.isDuplicateKeyError none = false ∧
    (∀ (number : Nat) (message : String),
      consumer.isDuplicateKeyError (some (GoError.mysql number message)) = true
        ↔ number = 1062) ∧
    (∀ text : String,
      consumer.isDuplicateKeyError (some (GoError.other text)) = true
        ↔ "Error 1062".data <:+: text.data) ∧
    (∀ (σ : Type) (DB : SqlDB σ) (body : List Char) (s : σ) (p : Payment),
      json.Unmarshal body zeroPayment = (p, none) →
      (consumer.insertStmt Table.skipped_messages p ∈ execs (consumer.handleMessage DB body s).2
        ↔ consumer.isDuplicateKeyError
            (DB.Exec (consumer.insertStmt Table.payment_events p) s).2 = true)) := by
  refine ⟨rfl, ?_, ?_, ?_⟩
  · intro number message
    simp [consumer.isDuplicateKeyError, consumer.MySQLDuplicateEntryCode]
  · intro text
    simp only [consumer.isDuplicateKeyError, strings.Contains, containsChars_iff]
  · intro σ DB body s p h
    rw [execs_handleMessage DB body s p h]
    by_cases hd : consumer.isDuplicateKeyError
        (DB.Exec (consumer.insertStmt Table.payment_events p) s).2 = true
    · simp [hd]
    · rw [if_neg hd]
      constructor
      · intro hmem
        simp [consumer.insertStmt] at hmem
      · intro h2
        exact absurd h2 hd

/-! ## Decode failures do not disturb the stream -/

theorem consumeLoop_append {σ : Type} (DB : SqlDB σ) (a b : List (List Char)) :
    ∀ s : σ, (consumer.consumeLoop DB (a ++ b) s).1
      = (consumer.consumeLoop DB b (consumer.consumeLoop DB a s).1).1 := by
  induction a with
  | nil => intro s; rfl
  | cons m a ih =>
    intro s
    show (consumer.consumeLoop DB (a ++ b) (consumer.handleMessage DB m s).1).1 = _
    rw [ih]
    rfl

theorem consumeLoop_filter {σ : Type} (DB : SqlDB σ) (msgs : List (List Char)) :
    ∀ s : σ, (consumer.consumeLoop DB msgs s).1
      = (consumer.consumeLoop DB (msgs.filter decodable) s).1 := by
  induction msgs with
  | nil => intro s; rfl
  | cons m msgs ih =>
    intro s
    cases hm : decodable m with
    | true =>
      simp only [List.filter_cons, hm, if_true, consumer.consumeLoop]
      exact ih _
    | false =>
      simp only [List.filter_cons, hm, consumer.consumeLoop]
      rw [handleMessage_of_not_decodable DB m s hm]
      simpa using ih s

/-- C8. For every sequence of inbound messages the consumer handles them one at a
time, in order (the store after `before ++ after` is the store after `after`
started from the store after `before`), and a decode failure neither blocks
nor drops later messages: the final store equals the one obtained from the
same sequence with all undecodable messages removed. -/
theorem decode_failures_skipped {σ : Type} (DB : SqlDB σ) (msgs : List (List Char)) (s : σ) :
    (consumer.Consume DB none msgs s).state
      = (consumer.Consume DB none (msgs.filter decodable) s).state ∧
    (consumer.Consume DB none msgs s).exited = false ∧
    (∀ before after : List (List Char), msgs = before ++ after →
      (consumer.Consume DB none msgs s).state
        = (consumer.Consume DB none after (consumer.Consume DB none before s).state).state) := by
  refine ⟨consumeLoop_filter DB msgs s, rfl, ?_⟩
  rintro before after rfl
  exact consumeLoop_append DB before after s

/-! ## The primary store: unique keys, append only -/

theorem primaryRows_setTable_skipped (d : Database) (rows : List Row) :
    (d.setTable Table.skipped_messages rows).primaryRows = d.primaryRows := by
  rfl

theorem mysqlExec_primary (q : Stmt) (d : Database) (h : (keys d.primaryRows).Nodup) :
    (keys (mysqlExec q d).1.primaryRows).Nodup ∧
      d.primaryRows <+: (mysqlExec q d).1.primaryRows := by
  rcases mysqlExec_cases q d with hc | ⟨t, ht, hc⟩ | ⟨t, rows, r, ht, hk, -, -, -, -, -, hc⟩
  · rw [hc]; exact ⟨h, List.prefix_refl _⟩
  · rw [hc]
    cases t with
    | payment_events =>
      have hp : d.payment_events = none := ht
      simp [Database.primaryRows, Database.setTable, hp, keys]
    | skipped_messages =>
      rw [primaryRows_setTable_skipped]; exact ⟨h, List.prefix_refl _⟩
  · rw [hc]
    cases t with
    | payment_events =>
      have hp : d.payment_events = some rows := ht
      have hrows : d.primaryRows = rows := by simp [Database.primaryRows, hp]
      have hnew : (d.setTable Table.payment_events (rows ++ [r])).primaryRows = rows ++ [r] := by
        simp [Database.primaryRows, Database.setTable]
      rw [hnew, hrows]
      rw [hrows] at h
      refine ⟨?_, List.prefix_append _ _⟩
      have hnot : r.payment_id ∉ keys rows := by
        intro hmem
        rw [← hasKey_iff_mem_keys, hk] at hmem
        exact Bool.false_ne_true hmem
      simp only [keys, List.map_append, List.map_cons, List.map_nil]
      rw [List.nodup_append]
      refine ⟨h, List.nodup_singleton _, ?_⟩
      intro a ha hb
      simp only [List.mem_singleton] at hb
      subst hb
      exact hnot ha
    | skipped_messages =>
      rw [primaryRows_setTable_skipped]; exact ⟨h, List.prefix_refl _⟩

theorem handleMessage_primary (body : List Char) (d : Database)
    (h : (keys d.primaryRows).Nodup) :
    (keys (consumer.handleMessage mysqlServer body d).1.primaryRows).Nodup ∧
      d.primaryRows <+: (consumer.handleMessage mysqlServer body d).1.primaryRows := by
  cases hu : json.Unmarshal body zeroPayment with
  | mk p e =>
    cases e with
    | some err =>
      rw [handleMessage_undecodable mysqlServer body d p err hu]
      exact ⟨h, List.prefix_refl _⟩
    | none =>
      rw [handleMessage_state mysqlServer body d p hu]
      have h1 := mysqlExec_primary (consumer.insertStmt Table.payment_events p) d h
      split_ifs
      · have h2 := mysqlExec_primary (consumer.insertStmt Table.skipped_messages p) _ h1.1
        exact ⟨h2.1, h1.2.trans h2.2⟩
      · exact h1

theorem consumeLoop_primary (msgs : List (List Char)) :
    ∀ d : Database, (keys d.primaryRows).Nodup →
      (keys (consumer.consumeLoop mysqlServer msgs d).1.primaryRows).Nodup ∧
        d.primaryRows <+: (consumer.consumeLoop mysqlServer msgs d).1.primaryRows := by
  induction msgs with
  | nil => intro d h; exact ⟨h, List.prefix_refl _⟩
  | cons m msgs ih =>
    intro d h
    have h1 := handleMessage_primary m d h
    have h2 := ih _ h1.1
    exact ⟨h2.1, h1.2.trans h2.2⟩

/-- C9. For every sequence of inbound messages and every starting state in which no
two rows of the primary store share a payment_id, after the consumer has
processed the sequence no two rows of the primary store share a payment_id,
and the rows present before are still there, unchanged and in place, the new
ones appended after them. -/
theorem primary_store_unique_append_only (msgs : List (List Char)) (d : Database)
    (h : (keys d.primaryRows).Nodup) :
    (keys (consumer.Consume mysqlServer none msgs d).state.primaryRows).Nodup ∧
      d.primaryRows <+: (consumer.Consume mysqlServer none msgs d).state.primaryRows :=
  consumeLoop_primary msgs d h

/-- The queue of `main` consumed on top of two earlier rows. -/
theorem primary_store_unique_append_only_witness :
    (keys (consumer.Consume mysqlServer none mainQueue
        { payment_events := some [⟨7, 2, 70⟩, ⟨8, 9, 80⟩],
          skipped_messages := some [] }).state.primaryRows).Nodup ∧
      [⟨7, 2, 70⟩, ⟨8, 9, 80⟩] <+: (consumer.Consume mysqlServer none mainQueue
        { payment_events := some [⟨7, 2, 70⟩, ⟨8, 9, 80⟩],
          skipped_messages := some [] }).state.primaryRows :=
  primary_store_unique_append_only mainQueue
    { payment_events := some [⟨7, 2, 70⟩, ⟨8, 9, 80⟩], skipped_messages := some [] }
    (by decide)

/-! ## The publisher -/

theorem publishLoop_trace {τ : Type} (ch : AmqpChannel τ) (queueName : String)
    (ps : List Payment) :
    ∀ t : τ, published (publisher.publishLoop ch queueName ps t).2
        = ps.map (fun p => (json.Marshal p).1) ∧
      Event.done ∉ (publisher.publishLoop ch queueName ps t).2 := by
  induction ps with
  | nil => intro t; simp [publisher.publishLoop, published]
  | cons p ps ih =>
    intro t
    simp only [publisher.publishLoop, json.Marshal]
    rcases hp : ch.Publish queueName (json.Marshal p).1 t with ⟨t1, _ | e⟩
    · simp only [json.Marshal] at hp
      simp only [hp]
      have := ih t1
      simp [published, this.1, this.2, json.Marshal]
    · simp only [json.Marshal] at hp
      simp only [hp]
      have := ih t1
      simp [published, this.1, this.2, json.Marshal]

/-- C10. Against any channel, whatever publishes fail, `Publish` hands the
three seed records (1,1,10), (1,2,20), (2,3,20) to `ch.Publish` exactly once
each and in that order, and sends the done signal exactly once, as the last
thing it does. -/
theorem publish_attempts_all_then_done {τ : Type} (ch : AmqpChannel τ) (queueName : String)
    (t : τ) :
    published (publisher.Publish ch queueName t).2
      = [(json.Marshal ⟨1, 1, 10⟩).1, (json.Marshal ⟨1, 2, 20⟩).1, (json.Marshal ⟨2, 3, 20⟩).1] ∧
    (publisher.Publish ch queueName t).2.count Event.done = 1 ∧
    (publisher.Publish ch queueName t).2.getLast? = some Event.done := by
  have h := publishLoop_trace ch queueName publisher.payments t
  refine ⟨?_, ?_, ?_⟩
  · have happ : ∀ a b : List Event, published (a ++ b) = published a ++ published b := by
      intro a b
      induction a with
      | nil => rfl
      | cons e a ih => cases e <;> simp [published, ih]
    simp only [publisher.Publish, happ, h.1]
    simp [published, publisher.payments]
  · simp only [publisher.Publish, List.count_append]
    rw [List.count_eq_zero_of_not_mem h.2]
    rfl
  · simp [publisher.Publish]

/-! ## Connecting with retries -/

theorem attempts_append (a b : List Event) : attempts (a ++ b) = attempts a ++ attempts b := by
  induction a with
  | nil => rfl
  | cons e a ih => cases e <;> simp [attempts, ih]

theorem execs_append (a b : List Event) : execs (a ++ b) = execs a ++ execs b := by
  induction a with
  | nil => rfl
  | cons e a ih => cases e <;> simp [execs, ih]

/-- The retry loop when attempt `k` is the first to succeed: it ends with
`err == nil` after the attempts `i, ..., k`, having executed no statement. -/
theorem retryLoop_success (outcome : Nat → Attempt) (k : Nat) (hk : k ≤ 5)
    (hok : (outcome k).err = none) :
    ∀ (fuel i : Nat) (err : Option GoError), i ≤ k → k - i < fuel →
      (∀ j, i ≤ j → j < k → (outcome j).err ≠ none) →
      (db.retryLoop outcome fuel i err).2 = none ∧
      attempts (db.retryLoop outcome fuel i err).1 = List.range' i (k - i + 1) ∧
      execs (db.retryLoop outcome fuel i err).1 = [] := by
  intro fuel
  induction fuel with
  | zero => intro i err _ hf; omega
  | succ fuel ih =>
    intro i err hik hf hfail
    have hi5 : i ≤ 5 := le_trans hik hk
    simp only [db.retryLoop, if_pos hi5]
    cases he : (outcome i).err with
    | none =>
      have hki : k = i := by
        by_contra hne
        exact hfail i (le_refl i) (by omega) he
      subst hki
      simp [attempts, execs]
    | some e =>
      have hlt : i < k := by
        rcases Nat.lt_or_ge i k with h | h
        · exact h
        · have hki : k = i := by omega
          rw [hki, he] at hok
          exact absurd hok (by simp)
      obtain ⟨h1, h2, h3⟩ := ih (i + 1) (some e) hlt (by omega)
        (fun j hj hjk => hfail j (by omega) hjk)
      refine ⟨h1, ?_, ?_⟩
      · have : k - i + 1 = (k - (i + 1) + 1) + 1 := by omega
        rw [this]
        simp [attempts, h2, List.range'_succ]
      · simp only [execs, h3]

/-- The retry loop when every remaining attempt fails: it ends with a non-nil
`err` after the attempts `i, ..., 5`, having executed no statement. -/
theorem retryLoop_failure (outcome : Nat → Attempt) :
    ∀ (fuel i : Nat) (err : Option GoError), 6 - i < fuel → (i ≤ 5 ∨ err ≠ none) →
      (∀ j, i ≤ j → j ≤ 5 → (outcome j).err ≠ none) →
      (db.retryLoop outcome fuel i err).2 ≠ none ∧
      attempts (db.retryLoop outcome fuel i err).1 = List.range' i (6 - i) ∧
      execs (db.retryLoop outcome fuel i err).1 = [] := by
  intro fuel
  induction fuel with
  | zero => intro i err hf; omega
  | succ fuel ih =>
    intro i err hf herr hfail
    by_cases hi5 : i ≤ 5
    · simp only [db.retryLoop, if_pos hi5]
      cases he : (outcome i).err with
      | none => exact absurd he (hfail i (le_refl i) hi5)
      | some e =>
        obtain ⟨h1, h2, h3⟩ := ih (i + 1) (some e) (by omega) (Or.inr (by simp))
          (fun j hj hj5 => hfail j (by omega) hj5)
        refine ⟨h1, ?_, ?_⟩
        · have : 6 - i = (6 - (i + 1)) + 1 := by omega
          rw [this]
          simp [attempts, h2, List.range'_succ]
        · simp only [execs, h3]
    · simp only [db.retryLoop, if_neg hi5]
      have h6 : 6 - i = 0 := by omega
      rcases herr with h | h
      · exact absurd h hi5
      · simp [h, h6, attempts, execs]

theorem retryLoop_attempts_le (outcome : Nat → Attempt) :
    ∀ (fuel i : Nat) (err : Option GoError),
      (attempts (db.retryLoop outcome fuel i err).1).length ≤ 6 - i := by
  intro fuel
  induction fuel with
  | zero => intro i err; simp [db.retryLoop, attempts]
  | succ fuel ih =>
    intro i err
    by_cases hi5 : i ≤ 5
    · simp only [db.retryLoop, if_pos hi5]
      cases he : (outcome i).err with
      | none => simp [attempts]; omega
      | some e =>
        have := ih (i + 1) (some e)
        simp only [attempts, List.length_cons]
        omega
    · simp [db.retryLoop, if_neg hi5, attempts]

theorem createTables_mysql (d : Database) :
    (db.createTables mysqlServer d).exited = false ∧
    (db.createTables mysqlServer d).state.payment_events.isSome = true ∧
    (db.createTables mysqlServer d).state.skipped_messages.isSome = true ∧
    execs (db.createTables mysqlServer d).trace = db.queries := by
  obtain ⟨pe, sm⟩ := d
  cases pe <;> cases sm <;>
    simp [db.createTables, db.queries, db.execAll, mysqlServer, mysqlExec, Database.table,
      Database.setTable, execs]

/-- C7. For every sequence of connection-attempt outcomes `InitDB` makes at most 5
attempts.  If attempt `k` (1 ≤ k ≤ 5) is the first to succeed, exactly the
attempts 1, ..., k are made, no statement is executed before `createTables`,
and `InitDB` then does what `createTables` does: it executes its statements and
ends in its store; against the MySQL server that run does not abort and
both tables exist afterwards.  If all 5 attempts fail, exactly 5 attempts
are made, the process is ended by `log.Fatalf`, no statement is executed
(`createTables` never runs) and the store is untouched. -/
theorem connect_retries_then_tables {σ : Type} (DB : SqlDB σ) (outcome : Nat → Attempt) (s : σ) :
    (attempts (db.InitDB DB outcome s).trace).length ≤ 5 ∧
    (∀ k, 1 ≤ k → k ≤ 5 → (∀ j, 1 ≤ j → j < k → (outcome j).err ≠ none) →
      (outcome k).err = none →
        attempts (db.InitDB DB outcome s).trace = List.range' 1 k ∧
        execs (db.InitDB DB outcome s).trace = execs (db.createTables DB s).trace ∧
        (db.InitDB DB outcome s).state = (db.createTables DB s).state ∧
        (db.InitDB DB outcome s).exited = (db.createTables DB s).exited ∧
        (∀ d : Database,
          (db.InitDB mysqlServer outcome d).exited = false ∧
          execs (db.InitDB mysqlServer outcome d).trace = db.queries ∧
          (db.InitDB mysqlServer outcome d).state.payment_events.isSome = true ∧
          (db.InitDB mysqlServer outcome d).state.skipped_messages.isSome = true)) ∧
    ((∀ j, 1 ≤ j → j ≤ 5 → (outcome j).err ≠ none) →
        attempts (db.InitDB DB outcome s).trace = [1, 2, 3, 4, 5] ∧
        (db.InitDB DB outcome s).exited = true ∧
        execs (db.InitDB DB outcome s).trace = [] ∧
        (db.InitDB DB outcome s).state = s) := by
  have hgen : ∀ (τ : Type) (D : SqlDB τ) (x : τ) (k : Nat), 1 ≤ k → k ≤ 5 →
      (∀ j, 1 ≤ j → j < k → (outcome j).err ≠ none) → (outcome k).err = none →
        attempts (db.InitDB D outcome x).trace = List.range' 1 k ∧
        execs (db.InitDB D outcome x).trace = execs (db.createTables D x).trace ∧
        (db.InitDB D outcome x).state = (db.createTables D x).state ∧
        (db.InitDB D outcome x).exited = (db.createTables D x).exited := by
    intro τ D x k hk1 hk5 hfail hok
    obtain ⟨h1, h2, h3⟩ := retryLoop_success outcome k hk5 hok 6 1 none hk1 (by omega) hfail
    have hnoconn : attempts (db.createTables D x).trace = [] := by
      simp only [db.createTables, db.queries, db.execAll]
      rcases D.Exec (Stmt.createTable Table.payment_events) x with ⟨x1, _ | e1⟩
      · simp only []
        rcases D.Exec (Stmt.createTable Table.skipped_messages) x1 with ⟨x2, _ | e2⟩ <;>
          simp [attempts]
      · simp [attempts]
    have hk : k - 1 + 1 = k := by omega
    simp only [db.InitDB, h1]
    cases hx : (db.createTables D x).exited with
    | true => simp [attempts_append, execs_append, h2, h3, hnoconn, hk]
    | false => simp [attempts_append, execs_append, h2, h3, hnoconn, hk, attempts, execs]
  refine ⟨?_, ?_, ?_⟩
  · have hle := retryLoop_attempts_le outcome 6 1 none
    have hnoconn : attempts (db.createTables DB s).trace = [] := by
      simp only [db.createTables, db.queries, db.execAll]
      rcases DB.Exec (Stmt.createTable Table.payment_events) s with ⟨x1, _ | e1⟩
      · simp only []
        rcases DB.Exec (Stmt.createTable Table.skipped_messages) x1 with ⟨x2, _ | e2⟩ <;>
          simp [attempts]
      · simp [attempts]
    simp only [db.InitDB]
    cases hr : (db.retryLoop outcome 6 1 none).2 with
    | some e =>
      simp only [attempts_append, attempts, List.append_nil]
      exact hle
    | none =>
      simp only []
      cases hx : (db.createTables DB s).exited with
      | true =>
        simp only [if_true, attempts_append, hnoconn, List.append_nil]
        exact hle
      | false =>
        simp only [Bool.false_eq_true, if_false, attempts_append, hnoconn, attempts,
          List.append_nil]
        exact hle
  · intro k hk1 hk5 hfail hok
    obtain ⟨a1, a2, a3, a4⟩ := hgen σ DB s k hk1 hk5 hfail hok
    refine ⟨a1, a2, a3, a4, ?_⟩
    intro d
    obtain ⟨-, b2, b3, b4⟩ := hgen Database mysqlServer d k hk1 hk5 hfail hok
    obtain ⟨c1, c2, c3, c4⟩ := createTables_mysql d
    rw [b2, b3, b4]
    exact ⟨c1, c4, c2, c3⟩
  · intro hfail
    obtain ⟨h1, h2, h3⟩ := retryLoop_failure outcome 6 1 none (by omega) (Or.inl (by omega))
      hfail
    obtain ⟨e, he⟩ := Option.ne_none_iff_exists'.1 h1
    simp only [db.InitDB, he]
    simp [attempts_append, execs_append, h2, h3, attempts, execs]
    rfl

/-- Two failures, then success at the third attempt; and five failures. -/
theorem connect_retries_then_tables_witness :
    (attempts (db.InitDB mysqlServer
        (fun i => if i < 3 then ⟨none, some (GoError.other "connection refused")⟩
                  else ⟨none, none⟩)
        { payment_events := none, skipped_messages := none }).trace = List.range' 1 3) ∧
    (db.InitDB mysqlServer
        (fun _ => ⟨some (GoError.other "unknown driver"), none⟩)
        { payment_events := none, skipped_messages := none }).exited = true :=
  ⟨((connect_retries_then_tables mysqlServer
        (fun i => if i < 3 then ⟨none, some (GoError.other "connection refused")⟩
                  else ⟨none, none⟩)
        { payment_events := none, skipped_messages := none }).2.1 3 (by decide) (by decide)
        (by intro j h1 h3; interval_cases j <;> decide) (by decide)).1,
   ((connect_retries_then_tables mysqlServer
        (fun _ => ⟨some (GoError.other "unknown driver"), none⟩)
        { payment_events := none, skipped_messages := none }).2.2
        (by intro j _ _; decide)).2.1⟩

end FastTrack
